import Mathlib

/-!
# Ledger core of the banking application (`src/core.js`)

A shallow embedding of the eight ledger operations and of the account id
generator, followed by the properties proved about them.

Modelling conventions.

* A JavaScript number is a `JsNum`: an exact rational, `+Infinity`,
  `-Infinity` or `NaN`.  Arithmetic and comparisons on the three special
  values follow IEEE-754 as JavaScript exposes it (`Infinity - Infinity` is
  `NaN`, every comparison with `NaN` is false).  Finite values are exact
  rationals: rounding, overflow and the sign of zero are not modelled.  The
  results below state what an operation computes with the `+` and `-` of the
  code; where a result needs a law that binary64 arithmetic does not have
  (a difference and a sum that cancel, a total that is conserved) it is
  stated for non-negative whole numbers up to `Number.MAX_SAFE_INTEGER`, on
  which binary64 arithmetic is exact.
* An `amount` argument is a `JsValue`: a number, or a value whose `typeof`
  is not `'number'`.
* The store is the array `accounts`; it is passed in and the possibly mutated
  array is returned next to the result.  `accounts.find(a => a.id === id)`
  yields the first match, and mutating the object it returns is
  `updateFirst`.
* `new Date().toISOString()` is the argument `now`; the successive values of
  `Math.random()` are the list `draws`, each a rational in `[0, 1)`.  The
  generator loop consumes one draw per iteration and has produced no result
  when the draws run out.
-/

namespace Bank

/-- A JavaScript number. -/
inductive JsNum where
  | fin (q : ℚ)
  | posInf
  | negInf
  | nan
deriving DecidableEq

namespace JsNum

/-- JavaScript `isNaN` on a number. -/
def isNaN : JsNum → Bool
  | nan => true
  | _ => false

/-- JavaScript `x + y` on numbers. -/
def add : JsNum → JsNum → JsNum
  | nan, _ => nan
  | _, nan => nan
  | fin a, fin b => fin (a + b)
  | fin _, posInf => posInf
  | fin _, negInf => negInf
  | posInf, negInf => nan
  | posInf, _ => posInf
  | negInf, posInf => nan
  | negInf, _ => negInf

/-- JavaScript `x - y` on numbers. -/
def sub : JsNum → JsNum → JsNum
  | nan, _ => nan
  | _, nan => nan
  | fin a, fin b => fin (a - b)
  | fin _, posInf => negInf
  | fin _, negInf => posInf
  | posInf, posInf => nan
  | posInf, _ => posInf
  | negInf, negInf => nan
  | negInf, _ => negInf

/-- JavaScript `x < y` on numbers. -/
def lt : JsNum → JsNum → Bool
  | nan, _ => false
  | _, nan => false
  | fin a, fin b => decide (a < b)
  | fin _, posInf => true
  | fin _, negInf => false
  | posInf, _ => false
  | negInf, negInf => false
  | negInf, _ => true

/-- JavaScript `x <= y` on numbers. -/
def le : JsNum → JsNum → Bool
  | nan, _ => false
  | _, nan => false
  | fin a, fin b => decide (a ≤ b)
  | fin _, posInf => true
  | fin _, negInf => false
  | posInf, posInf => true
  | posInf, _ => false
  | negInf, _ => true

/-- JavaScript `x > y` on numbers. -/
def gt (x y : JsNum) : Bool := lt y x

instance : Add JsNum := ⟨add⟩
instance : Sub JsNum := ⟨sub⟩

/-- The number literal `0`. -/
def zero : JsNum := fin 0

end JsNum

/-- A JavaScript value passed as an `amount`: a number, or something whose
`typeof` is not `'number'`. -/
inductive JsValue where
  | number (x : JsNum)
  | string (s : String)
  | undefined
deriving DecidableEq

/-- The `type` field of a transaction. -/
inductive TxType where
  | DEPOSIT
  | WITHDRAWAL
  | TRANSFER_OUT
  | TRANSFER_IN
deriving DecidableEq

/-- An entry of an account's `transactions` array. -/
structure Transaction where
  type : TxType
  amount : JsNum
  timestamp : String
  balanceAfter : JsNum
  description : String
deriving DecidableEq

/-- An element of the `accounts` array. -/
structure Account where
  id : String
  holderName : String
  balance : JsNum
  createdAt : String
  transactions : List Transaction
deriving DecidableEq

/-- The object an operation returns. -/
inductive Result where
  | error (msg : String)
  | success
  | successAccount (account : Account)
  | successAccounts (accounts : List Account)
  | successTransactions (transactions : List Transaction)
deriving DecidableEq

/-- The result is an `{ error: ... }` object. -/
def Result.isError : Result → Bool
  | .error _ => true
  | _ => false

/-- A value of `Math.random()`: a number in `[0, 1)`. -/
def Draw : Type := { r : ℚ // 0 ≤ r ∧ r < 1 }

/-- The number `Math.floor(1000 + Math.random() * 9000)`. -/
def candidateNumber (r : Draw) : ℤ := ⌊(1000 : ℚ) + r.val * 9000⌋

/-- The template string that `generateAccountId` builds from one draw. -/
def candidateId (r : Draw) : String := "ACC-" ++ toString (candidateNumber r)

/-- The test `accounts.some((account) => account.id === id)`. -/
def idTaken (accounts : List Account) (id : String) : Bool :=
  accounts.any (fun account => account.id == id)

/-- The do-while loop of `generateAccountId`: one draw per iteration, repeated
while the candidate is the id of some account. -/
def generateAccountId (accounts : List Account) : List Draw → Option String
  | [] => none
  | r :: rest =>
    if idTaken accounts (candidateId r) then generateAccountId accounts rest
    else some (candidateId r)

/-- The lookup `accounts.find((a) => a.id === id)`. -/
def findAccount (id : String) (accounts : List Account) : Option Account :=
  accounts.find? (fun a => a.id == id)

/-- Mutation of the object returned by `accounts.find((a) => a.id === id)`. -/
def updateFirst (id : String) (f : Account → Account) : List Account → List Account
  | [] => []
  | a :: rest => if a.id == id then f a :: rest else a :: updateFirst id f rest

/-- The check `typeof amount !== 'number' || isNaN(amount) || amount <= 0`,
returning the number when the check does not fire. -/
def positiveAmount : JsValue → Option JsNum
  | .number x => if x.isNaN || JsNum.le x JsNum.zero then none else some x
  | _ => none

/-- Source function `createAccount(name, amount, accounts)`. -/
def createAccount (name : String) (amount : JsValue) (now : String) (draws : List Draw)
    (accounts : List Account) : Option (Result × List Account) :=
  match amount with
  | .number x =>
    if x.isNaN then some (.error "Invalid input", accounts)
    else if JsNum.lt x JsNum.zero then some (.error "Negative amount not accepted", accounts)
    else
      match generateAccountId accounts draws with
      | none => none
      | some id =>
        let newAccount : Account :=
          { id := id
            holderName := name
            balance := x
            createdAt := now
            transactions :=
              [{ type := .DEPOSIT
                 amount := x
                 timestamp := now
                 balanceAfter := x
                 description := "Initial deposit" }] }
        some (.successAccount newAccount, accounts ++ [newAccount])
  | _ => some (.error "Invalid input", accounts)

/-- Source function `viewAccountDetails(id, accounts)`. -/
def viewAccountDetails (id : String) (accounts : List Account) : Result × List Account :=
  match findAccount id accounts with
  | none => (.error "Account not found", accounts)
  | some account => (.successAccount account, accounts)

/-- Source function `listAllAccounts(accounts)`. -/
def listAllAccounts (accounts : List Account) : Result × List Account :=
  if accounts.length = 0 then (.error "No accounts found", accounts)
  else (.successAccounts accounts, accounts)

/-- The statement `account.balance += amount`. -/
def credit (x : JsNum) (a : Account) : Account := { a with balance := a.balance + x }

/-- The statement `account.balance -= amount`. -/
def debit (x : JsNum) (a : Account) : Account := { a with balance := a.balance - x }

/-- The statement `account.transactions.push({ type, amount, timestamp,
balanceAfter: account.balance, description })`. -/
def pushTx (type : TxType) (x : JsNum) (now description : String) (a : Account) : Account :=
  { a with
    transactions := a.transactions ++
      [{ type := type
         amount := x
         timestamp := now
         balanceAfter := a.balance
         description := description }] }

/-- Source function `depositFunds(id, amount, accounts)`. -/
def depositFunds (id : String) (amount : JsValue) (now : String)
    (accounts : List Account) : Result × List Account :=
  match findAccount id accounts with
  | none => (.error "Account not found", accounts)
  | some account =>
    match positiveAmount amount with
    | none => (.error "Invalid amount", accounts)
    | some x =>
      let mutate := fun a => pushTx .DEPOSIT x now "Deposit" (credit x a)
      (.successAccount (mutate account), updateFirst id mutate accounts)

/-- Source function `withdrawFunds(id, amount, accounts)`. -/
def withdrawFunds (id : String) (amount : JsValue) (now : String)
    (accounts : List Account) : Result × List Account :=
  match findAccount id accounts with
  | none => (.error "Account not found", accounts)
  | some account =>
    match positiveAmount amount with
    | none => (.error "Invalid amount", accounts)
    | some x =>
      if JsNum.gt x account.balance then (.error "Insufficient funds", accounts)
      else
        let mutate := fun a => pushTx .WITHDRAWAL x now "Withdrawal" (debit x a)
        (.successAccount (mutate account), updateFirst id mutate accounts)

/-- Source function `transferFunds(fromId, toId, amount, accounts)`.  The four
mutations are applied one after the other to the objects found by the two
lookups, which are the same object when the two lookups return the same
array element. -/
def transferFunds (fromId toId : String) (amount : JsValue) (now : String)
    (accounts : List Account) : Result × List Account :=
  match findAccount fromId accounts, findAccount toId accounts with
  | none, _ => (.error "Source account not found", accounts)
  | some _, none => (.error "Recipient account not found", accounts)
  | some fromAccount, some _ =>
    match positiveAmount amount with
    | none => (.error "Input valid transfer amount", accounts)
    | some x =>
      if JsNum.lt fromAccount.balance x then (.error "Insufficient funds", accounts)
      else
        let s1 := updateFirst fromId (debit x) accounts
        let s2 := updateFirst toId (credit x) s1
        let s3 := updateFirst fromId (pushTx .TRANSFER_OUT x now ("To " ++ toId)) s2
        let s4 := updateFirst toId (pushTx .TRANSFER_IN x now ("From " ++ fromId)) s3
        (.success, s4)

/-- Source function `viewTransactionHistory(id, accounts)`. -/
def viewTransactionHistory (id : String) (accounts : List Account) : Result × List Account :=
  match findAccount id accounts with
  | none => (.error "Account not found", accounts)
  | some account =>
    if account.transactions.length = 0 then (.error "No transactions found", accounts)
    else (.successTransactions account.transactions, accounts)

/-- Source function `deleteAccount(id, accounts)`: `findIndex` then
`splice(index, 1)`. -/
def deleteAccount (id : String) (accounts : List Account) : Result × List Account :=
  let index := accounts.findIdx (fun a => a.id == id)
  if index = accounts.length then (.error "Account not found", accounts)
  else (.success, accounts.eraseIdx index)

/-- One call of a store-changing core operation, with the values it reads from
its environment. -/
inductive Call where
  | create (name : String) (amount : JsValue) (now : String) (draws : List Draw)
  | deposit (id : String) (amount : JsValue) (now : String)
  | withdraw (id : String) (amount : JsValue) (now : String)
  | transfer (fromId toId : String) (amount : JsValue) (now : String)
  | delete (id : String)

/-- The result and the store after a call, when the call returns. -/
def Call.run : Call → List Account → Option (Result × List Account)
  | .create name amount now draws, s => createAccount name amount now draws s
  | .deposit id amount now, s => some (depositFunds id amount now s)
  | .withdraw id amount now, s => some (withdrawFunds id amount now s)
  | .transfer fromId toId amount now, s => some (transferFunds fromId toId amount now s)
  | .delete id, s => some (deleteAccount id s)

/-- Stores reachable from the empty store by calls of the core operations,
successful or rejected, each call satisfying `allowed`. -/
inductive ReachableBy (allowed : Call → Prop) : List Account → Prop where
  | empty : ReachableBy allowed []
  | step (c : Call) (s s2 : List Account) (r : Result) :
      ReachableBy allowed s → allowed c → c.run s = some (r, s2) → ReachableBy allowed s2

/-- Stores reachable from the empty store by any sequence of calls of the core
operations, successful or rejected. -/
def Reachable (s : List Account) : Prop := ReachableBy (fun _ => True) s

/-- The signed effect of a transaction on the balance it is added to. -/
def applyTx (acc : JsNum) (t : Transaction) : JsNum :=
  match t.type with
  | .DEPOSIT => acc + t.amount
  | .TRANSFER_IN => acc + t.amount
  | .WITHDRAWAL => acc - t.amount
  | .TRANSFER_OUT => acc - t.amount

/-- The signed sum of the amounts of a history, accumulated from `0` in
history order. -/
def signedSum (txs : List Transaction) : JsNum := txs.foldl applyTx JsNum.zero

/-- A mutation keeps the `id` field. -/
def KeepsId (f : Account → Account) : Prop := ∀ a, (f a).id = a.id

/-- The account that a successful `createAccount` builds. -/
def newAccount (id name : String) (x : JsNum) (now : String) : Account :=
  { id := id
    holderName := name
    balance := x
    createdAt := now
    transactions :=
      [{ type := .DEPOSIT
         amount := x
         timestamp := now
         balanceAfter := x
         description := "Initial deposit" }] }

/-- What a call must guarantee for a property of single accounts to survive it: the
account it builds has the property, and each mutation it applies keeps the property
under the checks that precede the mutation. -/
def Call.Keeps (P : Account → Prop) : Call → Prop
  | .create name amount now _ =>
      ∀ x id, amount = .number x → x.isNaN = false → JsNum.lt x JsNum.zero = false →
        P (newAccount id name x now)
  | .deposit _ amount now =>
      ∀ x a, positiveAmount amount = some x → P a →
        P (pushTx .DEPOSIT x now "Deposit" (credit x a))
  | .withdraw _ amount now =>
      ∀ x a, positiveAmount amount = some x → JsNum.gt x a.balance = false → P a →
        P (pushTx .WITHDRAWAL x now "Withdrawal" (debit x a))
  | .transfer fromId toId amount now =>
      ∀ x, positiveAmount amount = some x →
        (fromId ≠ toId →
          (∀ a, JsNum.lt a.balance x = false → P a →
            P (pushTx .TRANSFER_OUT x now ("To " ++ toId) (debit x a))) ∧
          (∀ a, P a → P (pushTx .TRANSFER_IN x now ("From " ++ fromId) (credit x a)))) ∧
        (fromId = toId →
          ∀ a, JsNum.lt a.balance x = false → P a →
            P (pushTx .TRANSFER_IN x now ("From " ++ fromId)
              (pushTx .TRANSFER_OUT x now ("To " ++ toId) (credit x (debit x a)))))
  | .delete _ => True

/-- A draw of `Math.random()` equal to one half. -/
def halfDraw : Draw := ⟨1 / 2, by norm_num⟩

/-- A draw of `Math.random()` equal to one quarter. -/
def quarterDraw : Draw := ⟨1 / 4, by norm_num⟩

/-- Sample account: Alice opens with 100. -/
def alice : Account := newAccount "ACC-5500" "Alice" (.fin 100) "t0"

/-- Sample account: Bob opens with 0. -/
def bob : Account := newAccount "ACC-3250" "Bob" (.fin 0) "t1"

/-- Sample account: opened with an initial deposit of `Infinity`. -/
def richAccount : Account := newAccount "ACC-5500" "Rich" .posInf "t0"

/-- The sample account `richAccount` after `Infinity` has been withdrawn from it. -/
def brokeAccount : Account :=
  { id := "ACC-5500"
    holderName := "Rich"
    balance := .nan
    createdAt := "t0"
    transactions :=
      [{ type := .DEPOSIT, amount := .posInf, timestamp := "t0", balanceAfter := .posInf,
         description := "Initial deposit" },
       { type := .WITHDRAWAL, amount := .posInf, timestamp := "t1", balanceAfter := .nan,
         description := "Withdrawal" }] }

/-- The JavaScript test `account.balance >= 0`. -/
def NonNegBalance (a : Account) : Prop := JsNum.le JsNum.zero a.balance = true

/-- The amount passed to the call is not the number `Infinity`. -/
def Call.amountNotInfinity : Call → Prop
  | .create _ amount _ _ => amount ≠ .number .posInf
  | .deposit _ amount _ => amount ≠ .number .posInf
  | .withdraw _ amount _ => amount ≠ .number .posInf
  | .transfer _ _ amount _ => amount ≠ .number .posInf
  | .delete _ => True

/-- Every recorded amount is `>= 0`, and every amount after the seed entry is `> 0`. -/
def AmountsPositiveAfterSeed (a : Account) : Prop :=
  (∀ t ∈ a.transactions, JsNum.le JsNum.zero t.amount = true) ∧
  (∀ t ∈ a.transactions.tail, JsNum.gt t.amount JsNum.zero = true)

/-- The amount is not a number, is `NaN`, or is `<= 0`. -/
def InvalidAmount : JsValue → Prop
  | .number x => x.isNaN = true ∨ JsNum.le x JsNum.zero = true
  | _ => True

/-- The position `accounts.findIndex((a) => a.id === id)` of the first account with the
id, the length of the store when there is none. -/
def indexOfId (id : String) (accounts : List Account) : Nat :=
  accounts.findIdx (fun a => a.id == id)

/-- The `balanceAfter` of every entry of the history is the signed sum of the amounts of
the entries up to and including it. -/
def RunningBalance (a : Account) : Prop :=
  ∀ k t, a.transactions[k]? = some t → t.balanceAfter = signedSum (a.transactions.take (k + 1))

/-- The call is not a transfer from an account to itself. -/
def Call.notSelfTransfer : Call → Prop
  | .transfer fromId toId _ _ => fromId ≠ toId
  | _ => True

/-- The sample account `alice` after a transfer of 30 from `ACC-5500` to `ACC-5500`. -/
def aliceAfterSelfTransfer : Account :=
  { id := "ACC-5500"
    holderName := "Alice"
    balance := .fin 100
    createdAt := "t0"
    transactions :=
      [{ type := .DEPOSIT, amount := .fin 100, timestamp := "t0", balanceAfter := .fin 100,
         description := "Initial deposit" },
       { type := .TRANSFER_OUT, amount := .fin 30, timestamp := "t2", balanceAfter := .fin 100,
         description := "To ACC-5500" },
       { type := .TRANSFER_IN, amount := .fin 30, timestamp := "t2", balanceAfter := .fin 100,
         description := "From ACC-5500" }] }

/-- The ids of the accounts of a store, in store order. -/
def storeIds (s : List Account) : List String := s.map (fun a => a.id)

/-- A store of 9000 accounts whose ids are `ACC-1000`, ..., `ACC-9999`. -/
def fullStore : List Account :=
  (List.range 9000).map
    (fun (i : ℕ) => newAccount ("ACC-" ++ toString (1000 + (i : ℤ))) "Holder" (.fin 0) "t0")

/-- The sample account `brokeAccount`, whose balance is `NaN`, after 5 has been
withdrawn from it. -/
def brokeAccountAfterWithdrawal : Account :=
  { id := "ACC-5500"
    holderName := "Rich"
    balance := .nan
    createdAt := "t0"
    transactions :=
      [{ type := .DEPOSIT, amount := .posInf, timestamp := "t0", balanceAfter := .posInf,
         description := "Initial deposit" },
       { type := .WITHDRAWAL, amount := .posInf, timestamp := "t1", balanceAfter := .nan,
         description := "Withdrawal" },
       { type := .WITHDRAWAL, amount := .fin 5, timestamp := "t2", balanceAfter := .nan,
         description := "Withdrawal" }] }

/-- What a call naming the ids `named` may do to one account: `after` has the id,
holder name and creation time of `before`, its history is the history of `before` with
entries appended at the end, and it is `before` itself unless its id is named. -/
def Extends (named : List String) (before after : Account) : Prop :=
  after.id = before.id ∧ after.holderName = before.holderName ∧
  after.createdAt = before.createdAt ∧
  (∃ more, after.transactions = before.transactions ++ more) ∧
  (before.id ∉ named → after = before)

/-- A mutation that keeps `id`, `holderName` and `createdAt` and only appends to the
history. -/
def AppendsOnly (f : Account → Account) : Prop :=
  ∀ a, (f a).id = a.id ∧ (f a).holderName = a.holderName ∧ (f a).createdAt = a.createdAt ∧
    ∃ more, (f a).transactions = a.transactions ++ more

/-- The history starts with the entry that `createAccount` writes: a `DEPOSIT` described
as `Initial deposit`, stamped with the creation time of the account, whose `balanceAfter`
is its amount. -/
def SeedFirst (a : Account) : Prop :=
  ∃ t rest, a.transactions = t :: rest ∧ t.type = .DEPOSIT ∧
    t.description = "Initial deposit" ∧ t.timestamp = a.createdAt ∧ t.balanceAfter = t.amount

/-- The account `acct` is the first account of the store with the id. -/
def IsFirstWithId (id : String) (s : List Account) (acct : Account) : Prop :=
  ∃ l1 l2, s = l1 ++ acct :: l2 ∧ acct.id = id ∧ ∀ b ∈ l1, b.id ≠ id

/-- A store that no call of the core operations produces: its one account has an empty
history. -/
def emptyHistoryStore : List Account :=
  [{ id := "ACC-1234", holderName := "Nobody", balance := .fin 0, createdAt := "t0",
     transactions := [] }]

/-- The sample account `richAccount`, whose balance is `Infinity`, after a transfer of
`Infinity` from `ACC-5500` to `ACC-5500`. -/
def richAfterSelfTransfer : Account :=
  { id := "ACC-5500"
    holderName := "Rich"
    balance := .nan
    createdAt := "t0"
    transactions :=
      [{ type := .DEPOSIT, amount := .posInf, timestamp := "t0", balanceAfter := .posInf,
         description := "Initial deposit" },
       { type := .TRANSFER_OUT, amount := .posInf, timestamp := "t1", balanceAfter := .nan,
         description := "To ACC-5500" },
       { type := .TRANSFER_IN, amount := .posInf, timestamp := "t1", balanceAfter := .nan,
         description := "From ACC-5500" }] }

/-- The total that the caller shows after `listAllAccounts`:
`accounts.reduce((sum, acc) => sum + acc.balance, 0)`. -/
def totalBalance (accounts : List Account) : JsNum :=
  accounts.foldl (fun sum acc => sum + acc.balance) JsNum.zero

/-- The sample store `[richAccount, bob]` after a transfer of `Infinity` from `ACC-5500`
to `ACC-3250`. -/
def richBobAfterTransfer : List Account :=
  [{ id := "ACC-5500"
     holderName := "Rich"
     balance := .nan
     createdAt := "t0"
     transactions :=
       [{ type := .DEPOSIT, amount := .posInf, timestamp := "t0", balanceAfter := .posInf,
          description := "Initial deposit" },
        { type := .TRANSFER_OUT, amount := .posInf, timestamp := "t2", balanceAfter := .nan,
          description := "To ACC-3250" }] },
   { id := "ACC-3250"
     holderName := "Bob"
     balance := .posInf
     createdAt := "t1"
     transactions :=
       [{ type := .DEPOSIT, amount := .fin 0, timestamp := "t1", balanceAfter := .fin 0,
          description := "Initial deposit" },
        { type := .TRANSFER_IN, amount := .posInf, timestamp := "t2", balanceAfter := .posInf,
          description := "From ACC-5500" }] }]

/-- A non-negative whole number up to `Number.MAX_SAFE_INTEGER`, which is `2^53 - 1`.
Binary64 addition and subtraction of such numbers are exact whenever the result is again
such a number, so on them the arithmetic of the code and the exact arithmetic of the
finite case of `JsNum` give the same results. -/
def JsNum.IsSafeNat (x : JsNum) : Prop :=
  ∃ n : ℕ, x = .fin (n : ℚ) ∧ n ≤ 9007199254740991

/-- The balance is a non-negative whole number. -/
def WholeBalance (a : Account) : Prop := ∃ n : ℕ, a.balance = .fin (n : ℚ)

/-! ## Arithmetic of JavaScript numbers -/

theorem JsNum.add_def (x y : JsNum) : x + y = JsNum.add x y := rfl

theorem JsNum.sub_def (x y : JsNum) : x - y = JsNum.sub x y := rfl

@[simp]
theorem JsNum.fin_add_fin (a b : ℚ) : JsNum.fin a + JsNum.fin b = JsNum.fin (a + b) := rfl

@[simp]
theorem JsNum.fin_sub_fin (a b : ℚ) : JsNum.fin a - JsNum.fin b = JsNum.fin (a - b) := rfl

theorem JsNum.zero_add (x : JsNum) : JsNum.zero + x = x := by
  cases x <;> simp [JsNum.zero, JsNum.add_def, JsNum.add]

/-! ## Lookup and in-place update -/

theorem findAccount_cons (id : String) (a : Account) (rest : List Account) :
    findAccount id (a :: rest) = if a.id = id then some a else findAccount id rest := by
  unfold findAccount
  by_cases h : a.id = id <;> simp [List.find?_cons, h]

theorem findAccount_some_mem {id : String} {s : List Account} {a : Account}
    (h : findAccount id s = some a) : a ∈ s ∧ a.id = id := by
  unfold findAccount at h
  exact ⟨List.mem_of_find?_eq_some h, by simpa using List.find?_some h⟩

theorem findAccount_eq_none {id : String} {s : List Account} :
    findAccount id s = none ↔ ∀ a ∈ s, a.id ≠ id := by
  unfold findAccount
  simp [List.find?_eq_none]

theorem findAccount_isSome_of_mem {id : String} {s : List Account} {a : Account}
    (ha : a ∈ s) (hid : a.id = id) : ∃ b, findAccount id s = some b := by
  cases h : findAccount id s with
  | none => exact absurd hid (findAccount_eq_none.mp h a ha)
  | some b => exact ⟨b, rfl⟩

theorem idTaken_eq_false {id : String} {s : List Account} :
    idTaken s id = false ↔ ∀ a ∈ s, a.id ≠ id := by
  unfold idTaken
  simp [List.any_eq_false]

theorem updateFirst_nil (id : String) (f : Account → Account) : updateFirst id f [] = [] := rfl

theorem updateFirst_cons (id : String) (f : Account → Account) (a : Account)
    (rest : List Account) :
    updateFirst id f (a :: rest) =
      if a.id = id then f a :: rest else a :: updateFirst id f rest := by
  by_cases h : a.id = id <;> simp [updateFirst, h]

theorem updateFirst_length (id : String) (f : Account → Account) (s : List Account) :
    (updateFirst id f s).length = s.length := by
  induction s with
  | nil => rfl
  | cons a rest ih => rw [updateFirst_cons]; split <;> simp [ih]

theorem updateFirst_of_none {id : String} {f : Account → Account} {s : List Account}
    (h : findAccount id s = none) : updateFirst id f s = s := by
  induction s with
  | nil => rfl
  | cons a rest ih =>
    rw [findAccount_cons] at h
    rw [updateFirst_cons]
    split at h
    · cases h
    · rename_i hne
      rw [if_neg hne, ih h]

theorem updateFirst_map_id {id : String} {f : Account → Account} (hf : KeepsId f)
    (s : List Account) : (updateFirst id f s).map (fun a => a.id) = s.map (fun a => a.id) := by
  induction s with
  | nil => rfl
  | cons a rest ih =>
    rw [updateFirst_cons]
    split
    · simp [hf a]
    · simp [ih]

theorem findAccount_updateFirst_same {id : String} {f : Account → Account} (hf : KeepsId f)
    (s : List Account) : findAccount id (updateFirst id f s) = (findAccount id s).map f := by
  induction s with
  | nil => rfl
  | cons a rest ih =>
    rw [updateFirst_cons, findAccount_cons]
    by_cases h : a.id = id
    · simp [h, findAccount_cons, hf a]
    · simp [h, findAccount_cons, ih]

theorem findAccount_updateFirst_ne {id other : String} {f : Account → Account} (hf : KeepsId f)
    (hne : other ≠ id) (s : List Account) :
    findAccount other (updateFirst id f s) = findAccount other s := by
  induction s with
  | nil => rfl
  | cons a rest ih =>
    rw [updateFirst_cons]
    by_cases h : a.id = id
    · have h2 : a.id ≠ other := fun h3 => hne (h3.symm.trans h)
      simp [h, findAccount_cons, hf a, hne.symm, h2]
    · simp [h, findAccount_cons, ih]

theorem updateFirst_comp {id : String} {f g : Account → Account} (hf : KeepsId f)
    (s : List Account) :
    updateFirst id g (updateFirst id f s) = updateFirst id (fun a => g (f a)) s := by
  induction s with
  | nil => rfl
  | cons a rest ih =>
    by_cases h : a.id = id
    · simp [updateFirst_cons, h, hf a]
    · simp [updateFirst_cons, h, ih]

theorem updateFirst_comm {i j : String} {f g : Account → Account} (hf : KeepsId f)
    (hg : KeepsId g) (hij : i ≠ j) (s : List Account) :
    updateFirst i f (updateFirst j g s) = updateFirst j g (updateFirst i f s) := by
  induction s with
  | nil => rfl
  | cons a rest ih =>
    by_cases h1 : a.id = i
    · have h2 : a.id ≠ j := fun h3 => hij (h1.symm.trans h3)
      simp [updateFirst_cons, h1, h2, hf a, hij]
    · by_cases h2 : a.id = j
      · simp [updateFirst_cons, h1, h2, hg a, hij.symm]
      · simp [updateFirst_cons, h1, h2, ih]

/-- A property of accounts that holds for every account of a store still holds after the
first account with a given id is mutated, when the mutation keeps it for that account. -/
theorem forall_updateFirst {P : Account → Prop} {id : String} {f : Account → Account}
    {s : List Account} (hs : ∀ a ∈ s, P a)
    (hf : ∀ a, findAccount id s = some a → P a → P (f a)) :
    ∀ a ∈ updateFirst id f s, P a := by
  induction s with
  | nil => intro a ha; cases ha
  | cons b rest ih =>
    intro a ha
    rw [updateFirst_cons] at ha
    by_cases h : b.id = id
    · rw [if_pos h] at ha
      rcases List.mem_cons.mp ha with rfl | hmem
      · exact hf b (by rw [findAccount_cons, if_pos h]) (hs b (List.mem_cons_self _ _))
      · exact hs a (List.mem_cons_of_mem _ hmem)
    · rw [if_neg h] at ha
      rcases List.mem_cons.mp ha with rfl | hmem
      · exact hs a (List.mem_cons_self _ _)
      · refine ih (fun c hc => hs c (List.mem_cons_of_mem _ hc)) ?_ a hmem
        intro c hc
        exact hf c (by rw [findAccount_cons, if_neg h]; exact hc)

theorem keepsId_credit (x : JsNum) : KeepsId (credit x) := fun _ => rfl
theorem keepsId_debit (x : JsNum) : KeepsId (debit x) := fun _ => rfl
theorem keepsId_pushTx (t : TxType) (x : JsNum) (now d : String) : KeepsId (pushTx t x now d) :=
  fun _ => rfl

/-! ## The operations, branch by branch -/

theorem createAccount_of_generated {name : String} {x : JsNum} {now : String}
    {draws : List Draw} {s : List Account} {id : String}
    (hnan : x.isNaN = false) (hneg : JsNum.lt x JsNum.zero = false)
    (hid : generateAccountId s draws = some id) :
    createAccount name (.number x) now draws s =
      some (.successAccount (newAccount id name x now), s ++ [newAccount id name x now]) := by
  simp [createAccount, hnan, hneg, hid, newAccount]

theorem createAccount_returns {name : String} {amount : JsValue} {now : String}
    {draws : List Draw} {s s2 : List Account} {r : Result}
    (h : createAccount name amount now draws s = some (r, s2)) :
    (r.isError = true ∧ s2 = s) ∨
    ∃ x id, amount = .number x ∧ x.isNaN = false ∧ JsNum.lt x JsNum.zero = false ∧
      generateAccountId s draws = some id ∧
      r = .successAccount (newAccount id name x now) ∧ s2 = s ++ [newAccount id name x now] := by
  unfold createAccount at h
  split at h
  · rename_i x
    split at h
    · simp only [Option.some.injEq, Prod.mk.injEq] at h
      left; exact ⟨by rw [← h.1]; rfl, h.2.symm⟩
    · split at h
      · simp only [Option.some.injEq, Prod.mk.injEq] at h
        left; exact ⟨by rw [← h.1]; rfl, h.2.symm⟩
      · split at h
        · cases h
        · rename_i hnan hneg _ id hid
          simp only [Option.some.injEq, Prod.mk.injEq] at h
          right
          exact ⟨x, id, rfl, by simpa using hnan, by simpa using hneg, hid, h.1.symm, h.2.symm⟩
  · simp only [Option.some.injEq, Prod.mk.injEq] at h
    left; exact ⟨by rw [← h.1]; rfl, h.2.symm⟩

theorem depositFunds_returns {id : String} {amount : JsValue} {now : String}
    {s s2 : List Account} {r : Result} (h : depositFunds id amount now s = (r, s2)) :
    (r.isError = true ∧ s2 = s) ∨
    ∃ x a, findAccount id s = some a ∧ positiveAmount amount = some x ∧
      r = .successAccount (pushTx .DEPOSIT x now "Deposit" (credit x a)) ∧
      s2 = updateFirst id (fun a => pushTx .DEPOSIT x now "Deposit" (credit x a)) s := by
  unfold depositFunds at h
  split at h
  · simp only [Prod.mk.injEq] at h
    left; exact ⟨by rw [← h.1]; rfl, h.2.symm⟩
  · rename_i a ha
    split at h
    · simp only [Prod.mk.injEq] at h
      left; exact ⟨by rw [← h.1]; rfl, h.2.symm⟩
    · rename_i x hx
      simp only [Prod.mk.injEq] at h
      right; exact ⟨x, a, ha, hx, h.1.symm, h.2.symm⟩

theorem withdrawFunds_returns {id : String} {amount : JsValue} {now : String}
    {s s2 : List Account} {r : Result} (h : withdrawFunds id amount now s = (r, s2)) :
    (r.isError = true ∧ s2 = s) ∨
    ∃ x a, findAccount id s = some a ∧ positiveAmount amount = some x ∧
      JsNum.gt x a.balance = false ∧
      r = .successAccount (pushTx .WITHDRAWAL x now "Withdrawal" (debit x a)) ∧
      s2 = updateFirst id (fun a => pushTx .WITHDRAWAL x now "Withdrawal" (debit x a)) s := by
  unfold withdrawFunds at h
  split at h
  · simp only [Prod.mk.injEq] at h
    left; exact ⟨by rw [← h.1]; rfl, h.2.symm⟩
  · rename_i a ha
    split at h
    · simp only [Prod.mk.injEq] at h
      left; exact ⟨by rw [← h.1]; rfl, h.2.symm⟩
    · rename_i x hx
      split at h
      · simp only [Prod.mk.injEq] at h
        left; exact ⟨by rw [← h.1]; rfl, h.2.symm⟩
      · rename_i hgt
        simp only [Prod.mk.injEq] at h
        right; exact ⟨x, a, ha, hx, by simpa using hgt, h.1.symm, h.2.symm⟩

/-- The store after the four mutations of a transfer. -/
theorem transferFunds_returns {fromId toId : String} {amount : JsValue} {now : String}
    {s s2 : List Account} {r : Result} (h : transferFunds fromId toId amount now s = (r, s2)) :
    (r.isError = true ∧ s2 = s) ∨
    ∃ x a b, findAccount fromId s = some a ∧ findAccount toId s = some b ∧
      positiveAmount amount = some x ∧ JsNum.lt a.balance x = false ∧ r = .success ∧
      s2 = updateFirst toId (pushTx .TRANSFER_IN x now ("From " ++ fromId))
            (updateFirst fromId (pushTx .TRANSFER_OUT x now ("To " ++ toId))
              (updateFirst toId (credit x) (updateFirst fromId (debit x) s))) := by
  unfold transferFunds at h
  split at h
  · simp only [Prod.mk.injEq] at h
    left; exact ⟨by rw [← h.1]; rfl, h.2.symm⟩
  · simp only [Prod.mk.injEq] at h
    left; exact ⟨by rw [← h.1]; rfl, h.2.symm⟩
  · rename_i a b ha hb
    split at h
    · simp only [Prod.mk.injEq] at h
      left; exact ⟨by rw [← h.1]; rfl, h.2.symm⟩
    · rename_i x hx
      split at h
      · simp only [Prod.mk.injEq] at h
        left; exact ⟨by rw [← h.1]; rfl, h.2.symm⟩
      · rename_i hlt
        simp only [Prod.mk.injEq] at h
        right; exact ⟨x, a, b, ha, hb, hx, by simpa using hlt, h.1.symm, h.2.symm⟩

theorem transfer_store_distinct {fromId toId : String} (hne : fromId ≠ toId) (x : JsNum)
    (now : String) (s : List Account) :
    updateFirst toId (pushTx .TRANSFER_IN x now ("From " ++ fromId))
        (updateFirst fromId (pushTx .TRANSFER_OUT x now ("To " ++ toId))
          (updateFirst toId (credit x) (updateFirst fromId (debit x) s))) =
      updateFirst toId (fun a => pushTx .TRANSFER_IN x now ("From " ++ fromId) (credit x a))
        (updateFirst fromId
          (fun a => pushTx .TRANSFER_OUT x now ("To " ++ toId) (debit x a)) s) := by
  rw [updateFirst_comm (keepsId_pushTx _ _ _ _) (keepsId_credit x) hne,
    updateFirst_comp (keepsId_credit x), updateFirst_comp (keepsId_debit x)]

theorem transfer_store_self (id : String) (x : JsNum) (now d1 d2 : String)
    (s : List Account) :
    updateFirst id (pushTx .TRANSFER_IN x now d2)
        (updateFirst id (pushTx .TRANSFER_OUT x now d1)
          (updateFirst id (credit x) (updateFirst id (debit x) s))) =
      updateFirst id
        (fun a => pushTx .TRANSFER_IN x now d2 (pushTx .TRANSFER_OUT x now d1
          (credit x (debit x a)))) s := by
  rw [updateFirst_comp (keepsId_debit x),
    updateFirst_comp (fun a => (keepsId_credit x _).trans (keepsId_debit x a)),
    updateFirst_comp (fun a => (keepsId_pushTx _ _ _ _ _).trans
      ((keepsId_credit x _).trans (keepsId_debit x a)))]

theorem deleteAccount_returns {id : String} {s s2 : List Account} {r : Result}
    (h : deleteAccount id s = (r, s2)) :
    (r.isError = true ∧ s2 = s) ∨
    (r = .success ∧ s2 = s.eraseIdx (s.findIdx (fun a => a.id == id))) := by
  unfold deleteAccount at h
  simp only at h
  split at h
  · simp only [Prod.mk.injEq] at h
    left; exact ⟨by rw [← h.1]; rfl, h.2.symm⟩
  · simp only [Prod.mk.injEq] at h
    right; exact ⟨h.1.symm, h.2.symm⟩

/-- A property of single accounts that every call keeps is kept by every step. -/
theorem run_keeps {P : Account → Prop} {c : Call} {s s2 : List Account} {r : Result}
    (hc : c.Keeps P) (hs : ∀ a ∈ s, P a) (h : c.run s = some (r, s2)) :
    ∀ a ∈ s2, P a := by
  cases c with
  | create name amount now draws =>
    rcases createAccount_returns h with ⟨_, rfl⟩ | ⟨x, id, hx, hnan, hneg, _, _, rfl⟩
    · exact hs
    · intro a ha
      rcases List.mem_append.mp ha with ha | ha
      · exact hs a ha
      · rw [List.mem_singleton] at ha
        rw [ha]
        exact hc x id hx hnan hneg
  | deposit id amount now =>
    simp only [Call.run, Option.some.injEq] at h
    rcases depositFunds_returns h with ⟨_, rfl⟩ | ⟨x, a, _, hx, _, rfl⟩
    · exact hs
    · exact forall_updateFirst hs (fun b _ hb => hc x b hx hb)
  | withdraw id amount now =>
    simp only [Call.run, Option.some.injEq] at h
    rcases withdrawFunds_returns h with ⟨_, rfl⟩ | ⟨x, a, ha, hx, hgt, _, rfl⟩
    · exact hs
    · refine forall_updateFirst hs (fun b hb hPb => hc x b hx ?_ hPb)
      rw [ha] at hb
      cases hb
      exact hgt
  | transfer fromId toId amount now =>
    simp only [Call.run, Option.some.injEq] at h
    rcases transferFunds_returns h with ⟨_, rfl⟩ | ⟨x, a, b, ha, hb, hx, hlt, _, rfl⟩
    · exact hs
    · by_cases hne : fromId = toId
      · subst hne
        rw [transfer_store_self]
        refine forall_updateFirst hs (fun c hc2 hPc => (hc x hx).2 rfl c ?_ hPc)
        rw [ha] at hc2
        cases hc2
        exact hlt
      · rw [transfer_store_distinct hne]
        refine forall_updateFirst ?_ (fun c _ hPc => ((hc x hx).1 hne).2 c hPc)
        refine forall_updateFirst hs (fun c hc2 hPc => ((hc x hx).1 hne).1 c ?_ hPc)
        rw [ha] at hc2
        cases hc2
        exact hlt
  | delete id =>
    simp only [Call.run, Option.some.injEq] at h
    rcases deleteAccount_returns h with ⟨_, rfl⟩ | ⟨_, rfl⟩
    · exact hs
    · intro a ha
      exact hs a (List.mem_of_mem_eraseIdx ha)

/-- A property of single accounts that every allowed call keeps holds throughout every
store reachable by allowed calls. -/
theorem reachableBy_forall {allowed : Call → Prop} {P : Account → Prop}
    (hc : ∀ c, allowed c → c.Keeps P) {s : List Account} (h : ReachableBy allowed s) :
    ∀ a ∈ s, P a := by
  induction h with
  | empty => intro a ha; cases ha
  | step c s s2 r _ hallowed hrun ih => exact run_keeps (hc c hallowed) ih hrun

/-! ## Order of JavaScript numbers -/

theorem positiveAmount_eq_some {amount : JsValue} {x : JsNum} :
    positiveAmount amount = some x ↔
      amount = .number x ∧ x.isNaN = false ∧ JsNum.le x JsNum.zero = false := by
  cases amount with
  | number y =>
    simp only [positiveAmount]
    constructor
    · intro h
      split at h
      · cases h
      · rename_i hc
        cases h
        simp only [Bool.or_eq_true, not_or, Bool.not_eq_true] at hc
        exact ⟨rfl, hc.1, hc.2⟩
    · rintro ⟨h1, h2, h3⟩
      cases h1
      simp [h2, h3]
  | string s => simp [positiveAmount]
  | undefined => simp [positiveAmount]

/-- A number that passes the amount check is `Infinity` or a positive rational. -/
theorem positive_cases {x : JsNum} (hnan : x.isNaN = false)
    (hle : JsNum.le x JsNum.zero = false) : x = .posInf ∨ ∃ q : ℚ, x = .fin q ∧ 0 < q := by
  cases x with
  | fin q =>
    right
    refine ⟨q, rfl, ?_⟩
    simpa [JsNum.le, JsNum.zero] using hle
  | posInf => left; rfl
  | negInf => simp [JsNum.le, JsNum.zero] at hle
  | nan => simp [JsNum.isNaN] at hnan

/-- A balance with `balance >= 0` is `Infinity` or a non-negative rational. -/
theorem nonneg_cases {b : JsNum} (h : JsNum.le JsNum.zero b = true) :
    b = .posInf ∨ ∃ p : ℚ, b = .fin p ∧ 0 ≤ p := by
  cases b with
  | fin p =>
    right
    refine ⟨p, rfl, ?_⟩
    simpa [JsNum.le, JsNum.zero] using h
  | posInf => left; rfl
  | negInf => simp [JsNum.le, JsNum.zero] at h
  | nan => simp [JsNum.le, JsNum.zero] at h

theorem signedSum_append (txs more : List Transaction) :
    signedSum (txs ++ more) = more.foldl applyTx (signedSum txs) := by
  simp [signedSum, List.foldl_append]

theorem signedSum_append_singleton (txs : List Transaction) (t : Transaction) :
    signedSum (txs ++ [t]) = applyTx (signedSum txs) t := by
  simp [signedSum_append]

/-! ## Sample stores -/

theorem candidateId_halfDraw : candidateId halfDraw = "ACC-5500" := by
  have h : candidateNumber halfDraw = 5500 := by
    unfold candidateNumber halfDraw
    norm_num
  unfold candidateId
  rw [h]
  rfl

theorem candidateId_quarterDraw : candidateId quarterDraw = "ACC-3250" := by
  have h : candidateNumber quarterDraw = 3250 := by
    unfold candidateNumber quarterDraw
    norm_num
  unfold candidateId
  rw [h]
  rfl

theorem run_create_alice :
    (Call.create "Alice" (.number (.fin 100)) "t0" [halfDraw]).run [] =
      some (.successAccount alice, [alice]) := by
  have h : generateAccountId [] [halfDraw] = some "ACC-5500" := by
    rw [← candidateId_halfDraw]; rfl
  exact @createAccount_of_generated "Alice" (.fin 100) "t0" [halfDraw] [] "ACC-5500" rfl
    (by norm_num [JsNum.lt, JsNum.zero]) h

theorem run_create_bob :
    (Call.create "Bob" (.number (.fin 0)) "t1" [halfDraw, quarterDraw]).run [alice] =
      some (.successAccount bob, [alice, bob]) := by
  have h : generateAccountId [alice] [halfDraw, quarterDraw] = some "ACC-3250" := by
    simp [generateAccountId, idTaken, candidateId_halfDraw, candidateId_quarterDraw, alice,
      newAccount]
  exact @createAccount_of_generated "Bob" (.fin 0) "t1" [halfDraw, quarterDraw] [alice]
    "ACC-3250" rfl (by norm_num [JsNum.lt, JsNum.zero]) h

theorem reachableBy_alice_bob {allowed : Call → Prop}
    (h1 : allowed (Call.create "Alice" (.number (.fin 100)) "t0" [halfDraw]))
    (h2 : allowed (Call.create "Bob" (.number (.fin 0)) "t1" [halfDraw, quarterDraw])) :
    ReachableBy allowed [alice, bob] :=
  .step _ _ _ _ (.step _ _ _ _ .empty h1 run_create_alice) h2 run_create_bob

theorem reachable_alice_bob : Reachable [alice, bob] :=
  reachableBy_alice_bob trivial trivial

/-! ## C1: the balance is the signed sum of the history -/

theorem keeps_ledger (c : Call) : c.Keeps (fun a => a.balance = signedSum a.transactions) := by
  cases c with
  | create name amount now draws =>
    intro x id _ _ _
    simp [newAccount, signedSum, applyTx, JsNum.zero_add]
  | deposit id amount now =>
    intro x a _ h
    simp [pushTx, credit, signedSum_append_singleton, applyTx, h]
  | withdraw id amount now =>
    intro x a _ _ h
    simp [pushTx, debit, signedSum_append_singleton, applyTx, h]
  | transfer fromId toId amount now =>
    intro x _
    refine ⟨fun _ => ⟨?_, ?_⟩, fun _ => ?_⟩
    · intro a _ h
      simp [pushTx, debit, signedSum_append_singleton, applyTx, h]
    · intro a h
      simp [pushTx, credit, signedSum_append_singleton, applyTx, h]
    · intro a _ h
      simp [pushTx, credit, debit, signedSum_append, applyTx, h]
  | delete id => trivial

/-- C1. Ledger invariant: in every store reachable from the empty store by calls of
`createAccount`, `depositFunds`, `withdrawFunds`, `transferFunds` and `deleteAccount`,
successful or rejected, the balance of every account is the signed sum of the amounts of
its transactions, `DEPOSIT` and `TRANSFER_IN` added and `WITHDRAWAL` and `TRANSFER_OUT`
subtracted in history order, the seed transaction contributing the initial deposit. -/
theorem ledger_invariant (s : List Account) (h : Reachable s) :
    ∀ a ∈ s, a.balance = signedSum a.transactions :=
  reachableBy_forall (fun c _ => keeps_ledger c) h

theorem ledger_invariant_witness :
    Reachable [alice, bob] ∧ ∀ a ∈ [alice, bob], a.balance = signedSum a.transactions :=
  ⟨reachable_alice_bob, ledger_invariant [alice, bob] reachable_alice_bob⟩

/-! ## C2: balances stay non-negative -/

theorem keeps_nonNeg (c : Call) (hc : c.amountNotInfinity) : c.Keeps NonNegBalance := by
  have hfin : ∀ {amount : JsValue} {x : JsNum}, amount ≠ .number .posInf →
      positiveAmount amount = some x → ∃ q : ℚ, x = .fin q ∧ 0 < q := by
    intro amount x hne hx
    obtain ⟨rfl, hnan, hle⟩ := positiveAmount_eq_some.mp hx
    rcases positive_cases hnan hle with rfl | h
    · exact absurd rfl hne
    · exact h
  have hadd : ∀ (a : Account) (q : ℚ), 0 < q → NonNegBalance a →
      JsNum.le JsNum.zero (a.balance + .fin q) = true := by
    intro a q hq ha
    rcases nonneg_cases ha with hb | ⟨p, hb, hp⟩
    · rw [hb]; rfl
    · rw [hb]
      simp only [JsNum.fin_add_fin, JsNum.le, JsNum.zero, decide_eq_true_eq]
      linarith
  have hsub : ∀ (a : Account) (q : ℚ), JsNum.lt a.balance (.fin q) = false → NonNegBalance a →
      JsNum.le JsNum.zero (a.balance - .fin q) = true := by
    intro a q hq ha
    rcases nonneg_cases ha with hb | ⟨p, hb, hp⟩
    · rw [hb]; rfl
    · rw [hb] at hq ⊢
      simp only [JsNum.lt, decide_eq_false_iff_not, not_lt] at hq
      simp only [JsNum.fin_sub_fin, JsNum.le, JsNum.zero, decide_eq_true_eq]
      linarith
  cases c with
  | create name amount now draws =>
    intro x id hx hnan hneg
    subst hx
    cases x with
    | fin q =>
      simpa [NonNegBalance, newAccount, JsNum.le, JsNum.lt, JsNum.zero] using hneg
    | posInf => rfl
    | negInf => simp [JsNum.lt, JsNum.zero] at hneg
    | nan => simp [JsNum.isNaN] at hnan
  | deposit id amount now =>
    intro x a hx ha
    obtain ⟨q, rfl, hq⟩ := hfin hc hx
    exact hadd a q hq ha
  | withdraw id amount now =>
    intro x a hx hgt ha
    obtain ⟨q, rfl, hq⟩ := hfin hc hx
    exact hsub a q hgt ha
  | transfer fromId toId amount now =>
    intro x hx
    obtain ⟨q, rfl, hq⟩ := hfin hc hx
    refine ⟨fun _ => ⟨fun a hlt ha => hsub a q hlt ha, fun a ha => hadd a q hq ha⟩,
      fun _ a hlt ha => ?_⟩
    rcases nonneg_cases ha with hb | ⟨p, hb, hp⟩
    · simp only [NonNegBalance, pushTx, credit, debit, hb]; rfl
    · rw [hb] at hlt
      simp only [JsNum.lt, decide_eq_false_iff_not, not_lt] at hlt
      simp only [NonNegBalance, pushTx, credit, debit, hb, JsNum.fin_sub_fin, JsNum.fin_add_fin,
        JsNum.le, JsNum.zero, decide_eq_true_eq]
      linarith
  | delete id => trivial

/-- C2, as stated, fails: creating an account with an initial deposit of `Infinity` and
then withdrawing `Infinity` from it are two successful calls, and they leave the account
with the balance `NaN`, for which `balance >= 0` is false. -/
theorem nonNeg_counterexample :
    (Call.create "Rich" (.number .posInf) "t0" [halfDraw]).run [] =
        some (.successAccount richAccount, [richAccount]) ∧
      (Call.withdraw "ACC-5500" (.number .posInf) "t1").run [richAccount] =
        some (.successAccount brokeAccount, [brokeAccount]) ∧
      Reachable [brokeAccount] ∧ ¬ NonNegBalance brokeAccount := by
  have h1 : (Call.create "Rich" (.number .posInf) "t0" [halfDraw]).run [] =
      some (.successAccount richAccount, [richAccount]) := by
    have h : generateAccountId [] [halfDraw] = some "ACC-5500" := by
      rw [← candidateId_halfDraw]; rfl
    exact @createAccount_of_generated "Rich" .posInf "t0" [halfDraw] [] "ACC-5500" rfl rfl h
  have h2 : (Call.withdraw "ACC-5500" (.number .posInf) "t1").run [richAccount] =
      some (.successAccount brokeAccount, [brokeAccount]) := by decide
  exact ⟨h1, h2, .step _ _ _ _ (.step _ _ _ _ .empty trivial h1) trivial h2,
    by unfold NonNegBalance; decide⟩

/-- C2, amended. When no call passes the number `Infinity` as its amount, every account
of every store reachable from the empty store has `balance >= 0`; and each call of
`createAccount`, `depositFunds`, `withdrawFunds`, `transferFunds` or `deleteAccount` whose
amount is not `Infinity`, applied to a store in which every balance is `>= 0`, yields a
store in which every balance is `>= 0`. -/
theorem nonNeg_invariant :
    (∀ s, ReachableBy Call.amountNotInfinity s → ∀ a ∈ s, NonNegBalance a) ∧
    (∀ (c : Call) (s s2 : List Account) (r : Result), c.amountNotInfinity →
      (∀ a ∈ s, NonNegBalance a) → c.run s = some (r, s2) → ∀ a ∈ s2, NonNegBalance a) :=
  ⟨fun _ h => reachableBy_forall keeps_nonNeg h,
    fun c _ _ _ hc hs hrun => run_keeps (keeps_nonNeg c hc) hs hrun⟩

theorem nonNeg_invariant_witness :
    ReachableBy Call.amountNotInfinity [alice, bob] ∧
      (∀ a ∈ [alice, bob], NonNegBalance a) ∧
      (∀ a ∈ (transferFunds "ACC-5500" "ACC-3250" (.number (.fin 100)) "t2" [alice, bob]).2,
        NonNegBalance a) :=
  have hreach : ReachableBy Call.amountNotInfinity [alice, bob] :=
    reachableBy_alice_bob (by simp [Call.amountNotInfinity]) (by simp [Call.amountNotInfinity])
  ⟨hreach, nonNeg_invariant.1 [alice, bob] hreach,
    nonNeg_invariant.2 (.transfer "ACC-5500" "ACC-3250" (.number (.fin 100)) "t2") [alice, bob]
      _ _ (by simp [Call.amountNotInfinity]) (nonNeg_invariant.1 [alice, bob] hreach) rfl⟩

/-! ## C9: recorded amounts -/

theorem positive_gt_zero {x : JsNum} (hnan : x.isNaN = false)
    (hle : JsNum.le x JsNum.zero = false) :
    JsNum.gt x JsNum.zero = true ∧ JsNum.le JsNum.zero x = true := by
  rcases positive_cases hnan hle with rfl | ⟨q, rfl, hq⟩
  · exact ⟨rfl, rfl⟩
  · simp only [JsNum.gt, JsNum.lt, JsNum.le, JsNum.zero, decide_eq_true_eq]
    exact ⟨hq, le_of_lt hq⟩

theorem amounts_push {t : TxType} {x : JsNum} {now d : String} {a : Account}
    (hnan : x.isNaN = false) (hle : JsNum.le x JsNum.zero = false)
    (ha : AmountsPositiveAfterSeed a) : AmountsPositiveAfterSeed (pushTx t x now d a) := by
  obtain ⟨hgt, hge⟩ := positive_gt_zero hnan hle
  constructor
  · intro tx htx
    simp only [pushTx, List.mem_append, List.mem_singleton] at htx
    rcases htx with h | rfl
    · exact ha.1 tx h
    · exact hge
  · intro tx htx
    have hmem : tx ∈ a.transactions.tail ∨ tx = ⟨t, x, now, a.balance, d⟩ := by
      simp only [pushTx] at htx
      cases hl : a.transactions with
      | nil => rw [hl] at htx; simp at htx
      | cons t0 rest =>
        rw [hl] at htx
        simpa using htx
    rcases hmem with h | rfl
    · exact ha.2 tx h
    · exact hgt

theorem keeps_amounts (c : Call) : c.Keeps AmountsPositiveAfterSeed := by
  have hbal : ∀ (f : Account → Account) (a : Account), (f a).transactions = a.transactions →
      AmountsPositiveAfterSeed a → AmountsPositiveAfterSeed (f a) := by
    intro f a hf ha
    unfold AmountsPositiveAfterSeed
    rw [hf]
    exact ha
  cases c with
  | create name amount now draws =>
    intro x id hx hnan hneg
    constructor
    · intro t ht
      simp only [newAccount, List.mem_singleton] at ht
      subst ht
      cases x with
      | fin q => simpa [JsNum.le, JsNum.lt, JsNum.zero] using hneg
      | posInf => rfl
      | negInf => simp [JsNum.lt, JsNum.zero] at hneg
      | nan => simp [JsNum.isNaN] at hnan
    · intro t ht
      simp [newAccount] at ht
  | deposit id amount now =>
    intro x a hx ha
    obtain ⟨_, hnan, hle⟩ := positiveAmount_eq_some.mp hx
    exact amounts_push hnan hle (hbal (credit x) a rfl ha)
  | withdraw id amount now =>
    intro x a hx _ ha
    obtain ⟨_, hnan, hle⟩ := positiveAmount_eq_some.mp hx
    exact amounts_push hnan hle (hbal (debit x) a rfl ha)
  | transfer fromId toId amount now =>
    intro x hx
    obtain ⟨_, hnan, hle⟩ := positiveAmount_eq_some.mp hx
    refine ⟨fun _ => ⟨fun a _ ha => ?_, fun a ha => ?_⟩, fun _ a _ ha => ?_⟩
    · exact amounts_push hnan hle (hbal (debit x) a rfl ha)
    · exact amounts_push hnan hle (hbal (credit x) a rfl ha)
    · exact amounts_push hnan hle (amounts_push hnan hle
        (hbal (fun a => credit x (debit x a)) a rfl ha))
  | delete id => trivial

/-- C9, as stated, fails: `createAccount` accepts an initial deposit of `0`, and the seed
transaction it writes then has the amount `0`, for which `amount > 0` is false. -/
theorem amounts_positive_counterexample :
    Reachable [alice, bob] ∧
      ∃ a ∈ [alice, bob], ∃ t ∈ a.transactions,
        t.description = "Initial deposit" ∧ t.amount = .fin 0 ∧
        JsNum.gt t.amount JsNum.zero = false := by
  refine ⟨reachable_alice_bob, bob, by simp, ⟨.DEPOSIT, .fin 0, "t1", .fin 0, "Initial deposit"⟩,
    by simp [bob, newAccount], rfl, rfl, ?_⟩
  simp [JsNum.gt, JsNum.lt, JsNum.zero]

/-- C9, amended. In every store reachable from the empty store by calls of the core
operations, every transaction of every account has `amount >= 0`, and every transaction
after the first entry of a history (the seed written by `createAccount`) has
`amount > 0`. -/
theorem amounts_invariant (s : List Account) (h : Reachable s) :
    ∀ a ∈ s, (∀ t ∈ a.transactions, JsNum.le JsNum.zero t.amount = true) ∧
      (∀ t ∈ a.transactions.tail, JsNum.gt t.amount JsNum.zero = true) :=
  reachableBy_forall (fun c _ => keeps_amounts c) h

theorem amounts_invariant_witness :
    Reachable [alice, bob] ∧
      ∀ a ∈ [alice, bob], (∀ t ∈ a.transactions, JsNum.le JsNum.zero t.amount = true) ∧
        (∀ t ∈ a.transactions.tail, JsNum.gt t.amount JsNum.zero = true) :=
  ⟨reachable_alice_bob, amounts_invariant [alice, bob] reachable_alice_bob⟩

/-! ## C3: effect of a transfer between two accounts -/

theorem indexOfId_cons (id : String) (a : Account) (rest : List Account) :
    indexOfId id (a :: rest) = if a.id = id then 0 else indexOfId id rest + 1 := by
  unfold indexOfId
  by_cases h : a.id = id
  · simp [List.findIdx_cons, h]
  · have hb : (a.id == id) = false := by simpa using h
    simp [List.findIdx_cons, h, hb]

theorem updateFirst_eq_set {id : String} {f : Account → Account} {s : List Account}
    {a : Account} (h : findAccount id s = some a) :
    updateFirst id f s = s.set (indexOfId id s) (f a) := by
  induction s with
  | nil => cases h
  | cons b rest ih =>
    rw [findAccount_cons] at h
    rw [updateFirst_cons, indexOfId_cons]
    by_cases hb : b.id = id
    · rw [if_pos hb] at h
      cases h
      simp [hb]
    · rw [if_neg hb] at h
      simp [hb, ih h]

theorem indexOfId_updateFirst {id j : String} {f : Account → Account} (hf : KeepsId f)
    (s : List Account) : indexOfId j (updateFirst id f s) = indexOfId j s := by
  induction s with
  | nil => rfl
  | cons b rest ih =>
    rw [updateFirst_cons]
    by_cases hb : b.id = id
    · simp [hb, indexOfId_cons, hf b]
    · simp [hb, indexOfId_cons, ih]

theorem le_balance_not_lt {x b : JsNum} (h : JsNum.le x b = true) : JsNum.lt b x = false := by
  cases x <;> cases b <;> simp_all [JsNum.le, JsNum.lt]

theorem gt_zero_positive {x : JsNum} (h : JsNum.gt x JsNum.zero = true) :
    x.isNaN = false ∧ JsNum.le x JsNum.zero = false := by
  cases x <;> simp_all [JsNum.gt, JsNum.le, JsNum.lt, JsNum.zero, JsNum.isNaN]

theorem positiveAmount_of_gt_zero {x : JsNum} (h : JsNum.gt x JsNum.zero = true) :
    positiveAmount (.number x) = some x :=
  positiveAmount_eq_some.mpr ⟨rfl, gt_zero_positive h⟩

theorem transferFunds_of_checks {fromId toId : String} {x : JsNum} {now : String}
    {s : List Account} {src dst : Account} (hsrc : findAccount fromId s = some src)
    (hdst : findAccount toId s = some dst) (hpos : positiveAmount (.number x) = some x)
    (hlt : JsNum.lt src.balance x = false) :
    transferFunds fromId toId (.number x) now s =
      (.success,
        updateFirst toId (pushTx .TRANSFER_IN x now ("From " ++ fromId))
          (updateFirst fromId (pushTx .TRANSFER_OUT x now ("To " ++ toId))
            (updateFirst toId (credit x) (updateFirst fromId (debit x) s)))) := by
  simp [transferFunds, hsrc, hdst, hpos, hlt]

/-- C3. Transfer effect: when the first account with id `fromId` is `src`, the first
account with id `toId` is `dst`, the two ids differ and `0 < amount <= src.balance`
(equality included), `transferFunds(fromId, toId, amount)` returns `{ success: true }`
without payload, and the store afterwards is the old store with `src` replaced in place by
`src` with balance `src.balance - amount` and one `TRANSFER_OUT` entry appended (amount,
the call's timestamp, `balanceAfter` the new source balance, description `To <toId>`) and
`dst` replaced in place by `dst` with balance `dst.balance + amount` and one `TRANSFER_IN`
entry appended (amount, the same timestamp, `balanceAfter` the new destination balance,
description `From <fromId>`); nothing else changes, so two transactions are appended in
total. -/
theorem transfer_effect (s : List Account) (fromId toId : String) (x : JsNum) (now : String)
    (src dst : Account) (hne : fromId ≠ toId)
    (hsrc : findAccount fromId s = some src) (hdst : findAccount toId s = some dst)
    (hpos : JsNum.gt x JsNum.zero = true) (hle : JsNum.le x src.balance = true) :
    transferFunds fromId toId (.number x) now s =
      (.success,
        (s.set (indexOfId fromId s)
          { src with
            balance := src.balance - x
            transactions := src.transactions ++
              [{ type := .TRANSFER_OUT, amount := x, timestamp := now,
                 balanceAfter := src.balance - x, description := "To " ++ toId }] }).set
          (indexOfId toId s)
          { dst with
            balance := dst.balance + x
            transactions := dst.transactions ++
              [{ type := .TRANSFER_IN, amount := x, timestamp := now,
                 balanceAfter := dst.balance + x, description := "From " ++ fromId }] }) := by
  rw [transferFunds_of_checks hsrc hdst (positiveAmount_of_gt_zero hpos) (le_balance_not_lt hle),
    transfer_store_distinct hne]
  have hout : KeepsId (fun a => pushTx .TRANSFER_OUT x now ("To " ++ toId) (debit x a)) :=
    fun _ => rfl
  have hdst2 : findAccount toId
      (updateFirst fromId (fun a => pushTx .TRANSFER_OUT x now ("To " ++ toId) (debit x a)) s) =
      some dst := by
    rw [findAccount_updateFirst_ne hout (Ne.symm hne), hdst]
  rw [updateFirst_eq_set hdst2, indexOfId_updateFirst hout, updateFirst_eq_set hsrc]
  rfl

theorem transfer_effect_witness :
    findAccount "ACC-5500" [alice, bob] = some alice ∧
      findAccount "ACC-3250" [alice, bob] = some bob ∧
      transferFunds "ACC-5500" "ACC-3250" (.number (.fin 100)) "t2" [alice, bob] =
        (.success,
          [{ alice with
              balance := .fin 0
              transactions := alice.transactions ++
                [{ type := .TRANSFER_OUT, amount := .fin 100, timestamp := "t2",
                   balanceAfter := .fin 0, description := "To ACC-3250" }] },
           { bob with
              balance := .fin 100
              transactions := bob.transactions ++
                [{ type := .TRANSFER_IN, amount := .fin 100, timestamp := "t2",
                   balanceAfter := .fin 100, description := "From ACC-5500" }] }]) := by
  have h1 : findAccount "ACC-5500" [alice, bob] = some alice := by
    simp [findAccount, alice, newAccount]
  have h2 : findAccount "ACC-3250" [alice, bob] = some bob := by
    simp [findAccount, alice, bob, newAccount]
  refine ⟨h1, h2, ?_⟩
  rw [transfer_effect [alice, bob] "ACC-5500" "ACC-3250" (.fin 100) "t2" alice bob (by decide)
    h1 h2 (by norm_num [JsNum.gt, JsNum.lt, JsNum.zero])
    (by norm_num [JsNum.le, alice, newAccount])]
  norm_num [indexOfId, List.findIdx_cons, alice, bob, newAccount]
  rfl

/-! ## C4: a rejected call changes nothing -/

theorem run_error_store {c : Call} {s s2 : List Account} {r : Result}
    (h : c.run s = some (r, s2)) (hr : r.isError = true) : s2 = s := by
  cases c with
  | create name amount now draws =>
    rcases createAccount_returns h with ⟨_, h2⟩ | ⟨_, _, _, _, _, _, rfl, _⟩
    · exact h2
    · cases hr
  | deposit id amount now =>
    simp only [Call.run, Option.some.injEq] at h
    rcases depositFunds_returns h with ⟨_, h2⟩ | ⟨_, _, _, _, rfl, _⟩
    · exact h2
    · cases hr
  | withdraw id amount now =>
    simp only [Call.run, Option.some.injEq] at h
    rcases withdrawFunds_returns h with ⟨_, h2⟩ | ⟨_, _, _, _, _, rfl, _⟩
    · exact h2
    · cases hr
  | transfer fromId toId amount now =>
    simp only [Call.run, Option.some.injEq] at h
    rcases transferFunds_returns h with ⟨_, h2⟩ | ⟨_, _, _, _, _, _, _, rfl, _⟩
    · exact h2
    · cases hr
  | delete id =>
    simp only [Call.run, Option.some.injEq] at h
    rcases deleteAccount_returns h with ⟨_, h2⟩ | ⟨rfl, _⟩
    · exact h2
    · cases hr

/-- C4. Atomicity on failure: when a call of `createAccount`, `depositFunds`,
`withdrawFunds`, `transferFunds` or `deleteAccount` returns an error result, the store
after the call is the store before it (no account added or removed, no balance and no
transaction list changed), and the same call made again on that store returns the same
error and leaves the store the same once more. -/
theorem failure_atomic (c : Call) (s s2 : List Account) (msg : String)
    (h : c.run s = some (.error msg, s2)) :
    s2 = s ∧ c.run s2 = some (.error msg, s2) := by
  have hs : s2 = s := run_error_store h rfl
  subst hs
  exact ⟨rfl, h⟩

theorem failure_atomic_witness :
    (Call.withdraw "ACC-5500" (.number (.fin 500)) "t2").run [alice, bob] =
        some (.error "Insufficient funds", [alice, bob]) ∧
      ([alice, bob] = [alice, bob] ∧
        (Call.withdraw "ACC-5500" (.number (.fin 500)) "t2").run [alice, bob] =
          some (.error "Insufficient funds", [alice, bob])) :=
  have h : (Call.withdraw "ACC-5500" (.number (.fin 500)) "t2").run [alice, bob] =
      some (.error "Insufficient funds", [alice, bob]) := by
    norm_num [Call.run, withdrawFunds, findAccount, alice, bob, newAccount, positiveAmount,
      JsNum.isNaN, JsNum.le, JsNum.zero, JsNum.gt, JsNum.lt]
  ⟨h, failure_atomic _ [alice, bob] [alice, bob] "Insufficient funds" h⟩

/-! ## C5: order of the checks of a transfer -/

theorem positiveAmount_eq_none {amount : JsValue} :
    positiveAmount amount = none ↔ InvalidAmount amount := by
  cases amount with
  | number x =>
    simp only [positiveAmount, InvalidAmount]
    constructor
    · intro h
      split at h
      · rename_i hc
        simpa using hc
      · cases h
    · intro h
      rw [if_pos (by simpa using h)]
  | string s => simp [positiveAmount, InvalidAmount]
  | undefined => simp [positiveAmount, InvalidAmount]

theorem positiveAmount_of_valid {x : JsNum} (h : ¬ InvalidAmount (.number x)) :
    positiveAmount (.number x) = some x := by
  cases hp : positiveAmount (.number x) with
  | none => exact absurd (positiveAmount_eq_none.mp hp) h
  | some y =>
    have hy := (positiveAmount_eq_some.mp hp).1
    cases hy
    rfl

/-- C5. Transfer validation order: `transferFunds` returns `Source account not found`
when no account has the source id, whatever the destination and the amount; otherwise
`Recipient account not found` when no account has the destination id, whatever the amount;
otherwise `Input valid transfer amount` when the amount is not a number, is `NaN` or is
`<= 0`, whatever the source balance; otherwise `Insufficient funds` when the balance of the
source account is strictly less than the amount; and it returns `{ success: true }`
exactly when none of the four checks fails. -/
theorem transfer_validation_order (s : List Account) (fromId toId : String)
    (amount : JsValue) (now : String) :
    ((∀ a ∈ s, a.id ≠ fromId) →
      (transferFunds fromId toId amount now s).1 = .error "Source account not found") ∧
    ((∃ a ∈ s, a.id = fromId) → (∀ a ∈ s, a.id ≠ toId) →
      (transferFunds fromId toId amount now s).1 = .error "Recipient account not found") ∧
    ((∃ a ∈ s, a.id = fromId) → (∃ a ∈ s, a.id = toId) → InvalidAmount amount →
      (transferFunds fromId toId amount now s).1 = .error "Input valid transfer amount") ∧
    (∀ src x, findAccount fromId s = some src → (∃ a ∈ s, a.id = toId) →
      ¬ InvalidAmount amount → amount = .number x → JsNum.lt src.balance x = true →
      (transferFunds fromId toId amount now s).1 = .error "Insufficient funds") ∧
    ((transferFunds fromId toId amount now s).1 = .success ↔
      ∃ src x, findAccount fromId s = some src ∧ (∃ a ∈ s, a.id = toId) ∧
        ¬ InvalidAmount amount ∧ amount = .number x ∧ JsNum.lt src.balance x = false) := by
  refine ⟨?_, ?_, ?_, ?_, ?_⟩
  · intro h
    simp [transferFunds, findAccount_eq_none.mpr h]
  · rintro ⟨a, ha, hid⟩ h
    obtain ⟨src, hsrc⟩ := findAccount_isSome_of_mem ha hid
    simp [transferFunds, hsrc, findAccount_eq_none.mpr h]
  · rintro ⟨a, ha, hid⟩ ⟨b, hb, hid2⟩ h
    obtain ⟨src, hsrc⟩ := findAccount_isSome_of_mem ha hid
    obtain ⟨dst, hdst⟩ := findAccount_isSome_of_mem hb hid2
    simp [transferFunds, hsrc, hdst, positiveAmount_eq_none.mpr h]
  · rintro src x hsrc ⟨b, hb, hid2⟩ hvalid rfl hlt
    obtain ⟨dst, hdst⟩ := findAccount_isSome_of_mem hb hid2
    have hx := positiveAmount_of_valid hvalid
    simp [transferFunds, hsrc, hdst, hx, hlt]
  · constructor
    · intro h
      cases hr : transferFunds fromId toId amount now s with
      | mk r s2 =>
        rw [hr] at h
        simp only at h
        subst h
        rcases transferFunds_returns hr with ⟨he, _⟩ | ⟨x, a, b, ha, hb, hx, hlt, _, _⟩
        · cases he
        · obtain ⟨hb1, hb2⟩ := findAccount_some_mem hb
          obtain ⟨hx1, hx2, hx3⟩ := positiveAmount_eq_some.mp hx
          refine ⟨a, x, ha, ⟨b, hb1, hb2⟩, ?_, hx1, hlt⟩
          intro hinv
          rw [← positiveAmount_eq_none, hx] at hinv
          cases hinv
    · rintro ⟨src, x, hsrc, ⟨b, hb, hid2⟩, hvalid, rfl, hlt⟩
      obtain ⟨dst, hdst⟩ := findAccount_isSome_of_mem hb hid2
      have hx := positiveAmount_of_valid hvalid
      rw [transferFunds_of_checks hsrc hdst hx hlt]

theorem transfer_validation_order_witness :
    findAccount "ACC-5500" [alice, bob] = some alice ∧
      (∃ a ∈ [alice, bob], a.id = "ACC-3250") ∧
      ¬ InvalidAmount (.number (.fin 500)) ∧
      JsNum.lt alice.balance (.fin 500) = true ∧
      (transferFunds "ACC-5500" "ACC-3250" (.number (.fin 500)) "t2" [alice, bob]).1 =
        .error "Insufficient funds" :=
  have h1 : findAccount "ACC-5500" [alice, bob] = some alice := by
    simp [findAccount, alice, newAccount]
  have h2 : ∃ a ∈ [alice, bob], a.id = "ACC-3250" := ⟨bob, by simp, rfl⟩
  have h3 : ¬ InvalidAmount (.number (.fin 500)) := by
    norm_num [InvalidAmount, JsNum.isNaN, JsNum.le, JsNum.zero]
  have h4 : JsNum.lt alice.balance (.fin 500) = true := by
    norm_num [JsNum.lt, alice, newAccount]
  ⟨h1, h2, h3, h4,
    (transfer_validation_order [alice, bob] "ACC-5500" "ACC-3250" (.number (.fin 500))
      "t2").2.2.2.1 alice (.fin 500) h1 h2 h3 rfl h4⟩

/-! ## C6: `balanceAfter` and the running sum -/

/-- Appending an entry whose `balanceAfter` is the new balance keeps both the ledger
invariant and the running-balance invariant, when the new balance is the old one changed
by the signed effect of the entry. -/
theorem running_push {a : Account} {ty : TxType} {x b : JsNum} {now d : String}
    (hbal : a.balance = signedSum a.transactions) (hrun : RunningBalance a)
    (hb : b = applyTx a.balance ⟨ty, x, now, b, d⟩) :
    (pushTx ty x now d { a with balance := b }).balance =
        signedSum (pushTx ty x now d { a with balance := b }).transactions ∧
      RunningBalance (pushTx ty x now d { a with balance := b }) := by
  have hsum : signedSum (a.transactions ++ [⟨ty, x, now, b, d⟩]) = b := by
    rw [signedSum_append_singleton, ← hbal, ← hb]
  refine ⟨hsum.symm, ?_⟩
  intro k t hk
  simp only [pushTx] at hk ⊢
  by_cases hlt : k < a.transactions.length
  · rw [List.getElem?_append_left hlt] at hk
    rw [List.take_append_of_le_length (by omega)]
    exact hrun k t hk
  · rw [List.getElem?_append_right (by omega)] at hk
    have hk0 : k - a.transactions.length = 0 := by
      by_contra hne
      rw [List.getElem?_eq_none (by simp; omega)] at hk
      cases hk
    rw [hk0] at hk
    simp only [List.getElem?_cons_zero, Option.some.injEq] at hk
    rw [List.take_of_length_le (by simp; omega), hsum, ← hk]

theorem keeps_running (c : Call) (hc : c.notSelfTransfer) :
    c.Keeps (fun a => a.balance = signedSum a.transactions ∧ RunningBalance a) := by
  cases c with
  | create name amount now draws =>
    intro x id _ _ _
    have hsum : signedSum [⟨.DEPOSIT, x, now, x, "Initial deposit"⟩] = x := by
      simp [signedSum, applyTx, JsNum.zero_add]
    refine ⟨hsum.symm, ?_⟩
    intro k t hk
    cases k with
    | zero =>
      simp only [newAccount, List.getElem?_cons_zero, Option.some.injEq] at hk
      simp only [newAccount, List.take_succ_cons, List.take_zero]
      rw [hsum, ← hk]
    | succ n => simp [newAccount] at hk
  | deposit id amount now =>
    intro x a _ h
    exact running_push h.1 h.2 rfl
  | withdraw id amount now =>
    intro x a _ _ h
    exact running_push h.1 h.2 rfl
  | transfer fromId toId amount now =>
    intro x _
    refine ⟨fun _ => ⟨fun a _ h => running_push h.1 h.2 rfl,
      fun a h => running_push h.1 h.2 rfl⟩, fun heq => absurd heq hc⟩
  | delete id => trivial

/-- C6, as stated, fails: after `createAccount('Alice', 100)` the successful call
`transferFunds('ACC-5500', 'ACC-5500', 30)` appends a `TRANSFER_OUT` entry at position 1
whose `balanceAfter` is 100, while the signed sum of the amounts at positions 0..1 is
100 - 30 = 70. -/
theorem running_balance_counterexample :
    (Call.transfer "ACC-5500" "ACC-5500" (.number (.fin 30)) "t2").run [alice] =
        some (.success, [aliceAfterSelfTransfer]) ∧
      Reachable [aliceAfterSelfTransfer] ∧
      aliceAfterSelfTransfer.transactions[1]? =
        some ⟨.TRANSFER_OUT, .fin 30, "t2", .fin 100, "To ACC-5500"⟩ ∧
      signedSum (aliceAfterSelfTransfer.transactions.take 2) = .fin 70 ∧
      ¬ RunningBalance aliceAfterSelfTransfer := by
  have h1 : (Call.transfer "ACC-5500" "ACC-5500" (.number (.fin 30)) "t2").run [alice] =
      some (.success, [aliceAfterSelfTransfer]) := by
    norm_num [Call.run, transferFunds, findAccount, alice, newAccount, positiveAmount,
      JsNum.isNaN, JsNum.le, JsNum.lt, JsNum.zero, updateFirst, debit, credit, pushTx,
      aliceAfterSelfTransfer]
    exact ⟨by decide, by decide⟩
  have h2 : signedSum (aliceAfterSelfTransfer.transactions.take 2) = .fin 70 := by
    norm_num [aliceAfterSelfTransfer, signedSum, applyTx, JsNum.zero]
  refine ⟨h1, .step _ _ _ _ (.step _ _ _ _ .empty trivial run_create_alice) trivial h1, rfl,
    h2, ?_⟩
  intro h
  have h3 := h 1 _ rfl
  rw [h2] at h3
  norm_num [aliceAfterSelfTransfer] at h3

/-- C6, amended. In every store reachable from the empty store by calls of the core
operations none of which is a transfer whose source id and destination id are the same,
for every account and every transaction at position `k` of its history, the
`balanceAfter` of that transaction is the signed sum of the amounts of the account's
transactions at positions `0..k`. -/
theorem running_balance_invariant (s : List Account)
    (h : ReachableBy Call.notSelfTransfer s) :
    ∀ a ∈ s, ∀ k t, a.transactions[k]? = some t →
      t.balanceAfter = signedSum (a.transactions.take (k + 1)) :=
  fun a ha => (reachableBy_forall keeps_running h a ha).2

theorem running_balance_invariant_witness :
    ReachableBy Call.notSelfTransfer [alice, bob] ∧
      ∀ a ∈ [alice, bob], ∀ k t, a.transactions[k]? = some t →
        t.balanceAfter = signedSum (a.transactions.take (k + 1)) :=
  have h : ReachableBy Call.notSelfTransfer [alice, bob] :=
    reachableBy_alice_bob trivial trivial
  ⟨h, running_balance_invariant [alice, bob] h⟩

/-! ## C7: ids are unique -/

theorem generateAccountId_fresh {s : List Account} {draws : List Draw} {id : String}
    (h : generateAccountId s draws = some id) : idTaken s id = false := by
  induction draws with
  | nil => cases h
  | cons r rest ih =>
    simp only [generateAccountId] at h
    split at h
    · exact ih h
    · rename_i hr
      cases h
      simpa using hr

theorem storeIds_updateFirst {id : String} {f : Account → Account} (hf : KeepsId f)
    (s : List Account) : storeIds (updateFirst id f s) = storeIds s :=
  updateFirst_map_id hf s

theorem run_nodup {c : Call} {s s2 : List Account} {r : Result}
    (hs : (storeIds s).Nodup) (h : c.run s = some (r, s2)) : (storeIds s2).Nodup := by
  cases c with
  | create name amount now draws =>
    rcases createAccount_returns h with ⟨_, rfl⟩ | ⟨x, id, _, _, _, hid, _, rfl⟩
    · exact hs
    · have hfresh := idTaken_eq_false.mp (generateAccountId_fresh hid)
      simp only [storeIds, List.map_append, List.map_cons, List.map_nil, newAccount]
      refine List.Nodup.append hs (List.nodup_singleton _) ?_
      intro j hj hj2
      rw [List.mem_singleton] at hj2
      obtain ⟨a, ha, rfl⟩ := List.mem_map.mp hj
      exact hfresh a ha hj2
  | deposit id amount now =>
    simp only [Call.run, Option.some.injEq] at h
    rcases depositFunds_returns h with ⟨_, rfl⟩ | ⟨x, a, _, _, _, rfl⟩
    · exact hs
    · have hk : KeepsId (fun a => pushTx .DEPOSIT x now "Deposit" (credit x a)) := fun _ => rfl
      rw [storeIds_updateFirst hk]
      exact hs
  | withdraw id amount now =>
    simp only [Call.run, Option.some.injEq] at h
    rcases withdrawFunds_returns h with ⟨_, rfl⟩ | ⟨x, a, _, _, _, _, rfl⟩
    · exact hs
    · have hk : KeepsId (fun a => pushTx .WITHDRAWAL x now "Withdrawal" (debit x a)) :=
        fun _ => rfl
      rw [storeIds_updateFirst hk]
      exact hs
  | transfer fromId toId amount now =>
    simp only [Call.run, Option.some.injEq] at h
    rcases transferFunds_returns h with ⟨_, rfl⟩ | ⟨x, a, b, _, _, _, _, _, rfl⟩
    · exact hs
    · rw [storeIds_updateFirst (keepsId_pushTx _ _ _ _),
        storeIds_updateFirst (keepsId_pushTx _ _ _ _), storeIds_updateFirst (keepsId_credit x),
        storeIds_updateFirst (keepsId_debit x)]
      exact hs
  | delete id =>
    simp only [Call.run, Option.some.injEq] at h
    rcases deleteAccount_returns h with ⟨_, rfl⟩ | ⟨_, rfl⟩
    · exact hs
    · exact List.Nodup.sublist ((List.eraseIdx_sublist s _).map _) hs

theorem createAccount_fresh {name : String} {amount : JsValue} {now : String}
    {draws : List Draw} {s s2 : List Account} {acct : Account}
    (h : createAccount name amount now draws s = some (.successAccount acct, s2)) :
    (∀ a ∈ s, a.id ≠ acct.id) ∧ s2 = s ++ [acct] := by
  rcases createAccount_returns h with ⟨he, _⟩ | ⟨x, id, _, _, _, hid, hr, hs2⟩
  · cases he
  · cases hr
    exact ⟨idTaken_eq_false.mp (generateAccountId_fresh hid), hs2⟩

/-- C7. Id uniqueness: in every store reachable from the empty store by calls of the core
operations the account ids are pairwise distinct; for every store, the account created by
a successful `createAccount` has an id different from the id of every account already in
the store; and two accounts created by consecutive successful calls of `createAccount`
have different ids. -/
theorem id_uniqueness :
    (∀ s, Reachable s → (s.map (fun a => a.id)).Nodup) ∧
    (∀ (name : String) (amount : JsValue) (now : String) (draws : List Draw)
      (s s2 : List Account) (acct : Account),
      createAccount name amount now draws s = some (.successAccount acct, s2) →
      ∀ a ∈ s, a.id ≠ acct.id) ∧
    (∀ (name1 name2 : String) (amount1 amount2 : JsValue) (now1 now2 : String)
      (draws1 draws2 : List Draw) (s s1 s2 : List Account) (acct1 acct2 : Account),
      createAccount name1 amount1 now1 draws1 s = some (.successAccount acct1, s1) →
      createAccount name2 amount2 now2 draws2 s1 = some (.successAccount acct2, s2) →
      acct1.id ≠ acct2.id) := by
  refine ⟨?_, ?_, ?_⟩
  · intro s h
    induction h with
    | empty => exact List.nodup_nil
    | step c s s2 r _ _ hrun ih => exact run_nodup ih hrun
  · intro name amount now draws s s2 acct h
    exact (createAccount_fresh h).1
  · intro name1 name2 amount1 amount2 now1 now2 draws1 draws2 s s1 s2 acct1 acct2 h1 h2
    have hs1 := (createAccount_fresh h1).2
    exact (createAccount_fresh h2).1 acct1 (by rw [hs1]; simp)

theorem id_uniqueness_witness :
    Reachable [alice, bob] ∧ ([alice, bob].map (fun a => a.id)).Nodup ∧
      createAccount "Alice" (.number (.fin 100)) "t0" [halfDraw] [] =
        some (.successAccount alice, [alice]) ∧
      createAccount "Bob" (.number (.fin 0)) "t1" [halfDraw, quarterDraw] [alice] =
        some (.successAccount bob, [alice, bob]) ∧
      (∀ a ∈ [alice], a.id ≠ bob.id) ∧ alice.id ≠ bob.id :=
  ⟨reachable_alice_bob, id_uniqueness.1 [alice, bob] reachable_alice_bob,
    run_create_alice, run_create_bob,
    id_uniqueness.2.1 "Bob" (.number (.fin 0)) "t1" [halfDraw, quarterDraw] [alice]
      [alice, bob] bob run_create_bob,
    id_uniqueness.2.2 "Alice" "Bob" (.number (.fin 100)) (.number (.fin 0)) "t0" "t1"
      [halfDraw] [halfDraw, quarterDraw] [] [alice] [alice, bob] alice bob
      run_create_alice run_create_bob⟩

/-! ## C8: deleting an account -/

theorem first_match_split {id : String} {s : List Account} (h : ∃ a ∈ s, a.id = id) :
    ∃ l1 a l2, s = l1 ++ a :: l2 ∧ a.id = id ∧ (∀ b ∈ l1, b.id ≠ id) ∧
      indexOfId id s = l1.length := by
  induction s with
  | nil => obtain ⟨a, ha, _⟩ := h; cases ha
  | cons b rest ih =>
    by_cases hb : b.id = id
    · exact ⟨[], b, rest, rfl, hb, by simp, by simp [indexOfId_cons, hb]⟩
    · obtain ⟨a, ha, haid⟩ := h
      have hrest : ∃ a ∈ rest, a.id = id := by
        rcases List.mem_cons.mp ha with rfl | hmem
        · exact absurd haid hb
        · exact ⟨a, hmem, haid⟩
      obtain ⟨l1, a2, l2, hs, ha2, hl1, hidx⟩ := ih hrest
      refine ⟨b :: l1, a2, l2, by rw [hs]; rfl, ha2, ?_, by simp [indexOfId_cons, hb, hidx]⟩
      intro c hc
      rcases List.mem_cons.mp hc with rfl | hmem
      · exact hb
      · exact hl1 c hmem

/-- C8. Delete contract: for a store whose account ids are pairwise distinct,
`deleteAccount(id)` returns `Account not found` and leaves the store as it is when no
account has the id; otherwise it returns `{ success: true }`, the store afterwards is the
old store with exactly the one account with that id taken out, the accounts before it and
after it unchanged and in their order, no account of the new store has the id, and
`viewAccountDetails(id)` on the new store returns `Account not found`. -/
theorem delete_contract (s : List Account) (id : String)
    (hnodup : (s.map (fun a => a.id)).Nodup) :
    ((∀ a ∈ s, a.id ≠ id) → deleteAccount id s = (.error "Account not found", s)) ∧
    ((∃ a ∈ s, a.id = id) →
      ∃ l1 a l2, s = l1 ++ a :: l2 ∧ a.id = id ∧
        deleteAccount id s = (.success, l1 ++ l2) ∧
        (∀ b ∈ l1 ++ l2, b.id ≠ id) ∧
        viewAccountDetails id (l1 ++ l2) = (.error "Account not found", l1 ++ l2)) := by
  constructor
  · intro h
    have hidx : s.findIdx (fun a => a.id == id) = s.length :=
      List.findIdx_eq_length_of_false (fun a ha => by simpa using h a ha)
    simp [deleteAccount, hidx]
  · intro h
    obtain ⟨l1, a, l2, hs, ha, hl1, hidx⟩ := first_match_split h
    have hl2 : ∀ b ∈ l2, b.id ≠ id := by
      intro b hb hbid
      rw [hs] at hnodup
      simp only [List.map_append, List.map_cons] at hnodup
      have h2 := (List.nodup_cons.mp (List.nodup_append.mp hnodup).2.1).1
      exact h2 (List.mem_map.mpr ⟨b, hb, hbid.trans ha.symm⟩)
    have hall : ∀ b ∈ l1 ++ l2, b.id ≠ id := by
      intro b hb
      rcases List.mem_append.mp hb with hb | hb
      · exact hl1 b hb
      · exact hl2 b hb
    refine ⟨l1, a, l2, hs, ha, ?_, hall, ?_⟩
    · have hidx2 : s.findIdx (fun a => a.id == id) = l1.length := hidx
      have hne : l1.length ≠ s.length := by rw [hs]; simp
      have herase : s.eraseIdx l1.length = l1 ++ l2 := by
        rw [hs, List.eraseIdx_append_of_length_le (Nat.le_refl _)]
        simp
      simp only [deleteAccount, hidx2, if_neg hne, herase]
    · simp [viewAccountDetails, findAccount_eq_none.mpr hall]

theorem delete_contract_witness :
    ([alice, bob].map (fun a => a.id)).Nodup ∧ (∃ a ∈ [alice, bob], a.id = "ACC-5500") ∧
      ∃ l1 a l2, [alice, bob] = l1 ++ a :: l2 ∧ a.id = "ACC-5500" ∧
        deleteAccount "ACC-5500" [alice, bob] = (.success, l1 ++ l2) ∧
        (∀ b ∈ l1 ++ l2, b.id ≠ "ACC-5500") ∧
        viewAccountDetails "ACC-5500" (l1 ++ l2) = (.error "Account not found", l1 ++ l2) :=
  have h1 : ([alice, bob].map (fun a => a.id)).Nodup := by
    simp [alice, bob, newAccount]
  have h2 : ∃ a ∈ [alice, bob], a.id = "ACC-5500" := ⟨alice, by simp, rfl⟩
  ⟨h1, h2, (delete_contract [alice, bob] "ACC-5500" h1).2 h2⟩

/-! ## C10: what `createAccount` builds -/

theorem candidateNumber_bounds (r : Draw) :
    1000 ≤ candidateNumber r ∧ candidateNumber r ≤ 9999 := by
  have h0 : (0 : ℚ) ≤ r.val := r.property.1
  have h1 : r.val < 1 := r.property.2
  unfold candidateNumber
  constructor
  · apply Int.le_floor.mpr
    push_cast
    linarith
  · have h : ⌊(1000 : ℚ) + r.val * 9000⌋ < 10000 := by
      apply Int.floor_lt.mpr
      push_cast
      linarith
    omega

theorem idTaken_fullStore (r : Draw) : idTaken fullStore (candidateId r) = true := by
  obtain ⟨hlo, hhi⟩ := candidateNumber_bounds r
  unfold idTaken
  rw [List.any_eq_true]
  refine ⟨newAccount ("ACC-" ++ toString (1000 + (((candidateNumber r - 1000).toNat : ℕ) : ℤ)))
    "Holder" (.fin 0) "t0", ?_, ?_⟩
  · unfold fullStore
    refine List.mem_map.mpr ⟨(candidateNumber r - 1000).toNat, ?_, rfl⟩
    rw [List.mem_range]
    omega
  · have h : 1000 + (((candidateNumber r - 1000).toNat : ℕ) : ℤ) = candidateNumber r := by
      omega
    simp only [newAccount, candidateId]
    rw [h]
    simp

theorem generateAccountId_fullStore (draws : List Draw) :
    generateAccountId fullStore draws = none := by
  induction draws with
  | nil => rfl
  | cons r rest ih => simp [generateAccountId, idTaken_fullStore r, ih]

theorem generateAccountId_of_unused {s : List Account} {draws : List Draw}
    (h : ∃ r ∈ draws, idTaken s (candidateId r) = false) :
    ∃ id, generateAccountId s draws = some id := by
  induction draws with
  | nil => obtain ⟨r, hr, _⟩ := h; cases hr
  | cons r rest ih =>
    by_cases hr : idTaken s (candidateId r) = true
    · obtain ⟨r2, hr2, hfree⟩ := h
      have hrest : ∃ r ∈ rest, idTaken s (candidateId r) = false := by
        rcases List.mem_cons.mp hr2 with rfl | hmem
        · rw [hr] at hfree; cases hfree
        · exact ⟨r2, hmem, hfree⟩
      obtain ⟨id, hid⟩ := ih hrest
      exact ⟨id, by simp [generateAccountId, hr, hid]⟩
    · exact ⟨candidateId r, by simp [generateAccountId, hr]⟩

theorem nonneg_not_nan_not_neg {x : JsNum} (h : JsNum.le JsNum.zero x = true) :
    x.isNaN = false ∧ JsNum.lt x JsNum.zero = false := by
  rcases nonneg_cases h with rfl | ⟨p, rfl, hp⟩
  · exact ⟨rfl, rfl⟩
  · simp only [JsNum.isNaN, JsNum.lt, JsNum.zero, decide_eq_false_iff_not, not_lt, true_and]
    exact hp

/-- C10, as stated, fails: on the store that holds an account for each of the 9000 ids
`ACC-1000`, ..., `ACC-9999`, every candidate id is taken, so `createAccount` with the
valid amount `0` returns nothing, whatever `Math.random()` yields and however long the
loop runs. -/
theorem create_counterexample :
    fullStore.length = 9000 ∧
      (∀ r : Draw, idTaken fullStore (candidateId r) = true) ∧
      ∀ draws : List Draw,
        createAccount "Carol" (.number (.fin 0)) "t1" draws fullStore = none := by
  refine ⟨by simp [fullStore], idTaken_fullStore, ?_⟩
  intro draws
  have h1 : JsNum.lt (.fin 0) JsNum.zero = false := by norm_num [JsNum.lt, JsNum.zero]
  simp [createAccount, JsNum.isNaN, h1, generateAccountId_fullStore]

/-- C10, amended. For every holder name, every store, every numeric amount `A >= 0`
(`0` included, `NaN` excluded) and every sequence of draws one of which yields an id that
no account of the store has, `createAccount` succeeds and returns an account with
`holderName` the name, balance `A`, `createdAt` the time of the call and a history of
exactly one entry, a `DEPOSIT` with amount `A`, `balanceAfter` `A`, description
`Initial deposit` and the timestamp `createdAt`; its id is the id the generator returned,
which no account of the store has; and the store afterwards is the old store with this
account appended at the end. -/
theorem create_postcondition (name : String) (s : List Account) (x : JsNum) (now : String)
    (draws : List Draw) (hx : JsNum.le JsNum.zero x = true)
    (hdraw : ∃ r ∈ draws, idTaken s (candidateId r) = false) :
    ∃ acct : Account,
      createAccount name (.number x) now draws s = some (.successAccount acct, s ++ [acct]) ∧
      generateAccountId s draws = some acct.id ∧
      (∀ a ∈ s, a.id ≠ acct.id) ∧
      acct.holderName = name ∧ acct.balance = x ∧ acct.createdAt = now ∧
      acct.transactions =
        [{ type := .DEPOSIT, amount := x, timestamp := acct.createdAt, balanceAfter := x,
           description := "Initial deposit" }] ∧
      (s ++ [acct]).length = s.length + 1 := by
  obtain ⟨id, hid⟩ := generateAccountId_of_unused hdraw
  obtain ⟨hnan, hneg⟩ := nonneg_not_nan_not_neg hx
  exact ⟨newAccount id name x now, createAccount_of_generated hnan hneg hid, hid,
    idTaken_eq_false.mp (generateAccountId_fresh hid), rfl, rfl, rfl, rfl, by simp⟩

theorem create_postcondition_witness :
    JsNum.le JsNum.zero (.fin 0) = true ∧
      (∃ r ∈ [halfDraw, quarterDraw], idTaken [alice] (candidateId r) = false) ∧
      ∃ acct : Account,
        createAccount "Bob" (.number (.fin 0)) "t1" [halfDraw, quarterDraw] [alice] =
          some (.successAccount acct, [alice] ++ [acct]) ∧
        generateAccountId [alice] [halfDraw, quarterDraw] = some acct.id ∧
        (∀ a ∈ [alice], a.id ≠ acct.id) ∧
        acct.holderName = "Bob" ∧ acct.balance = .fin 0 ∧ acct.createdAt = "t1" ∧
        acct.transactions =
          [{ type := .DEPOSIT, amount := .fin 0, timestamp := acct.createdAt,
             balanceAfter := .fin 0, description := "Initial deposit" }] ∧
        ([alice] ++ [acct]).length = [alice].length + 1 :=
  have h1 : JsNum.le JsNum.zero (.fin 0) = true := by norm_num [JsNum.le, JsNum.zero]
  have h2 : ∃ r ∈ [halfDraw, quarterDraw], idTaken [alice] (candidateId r) = false :=
    ⟨quarterDraw, by simp, by simp [idTaken, candidateId_quarterDraw, alice, newAccount]⟩
  ⟨h1, h2, create_postcondition "Bob" [alice] (.fin 0) "t1" [halfDraw, quarterDraw] h1 h2⟩

/-! ## C11: validation in `createAccount` -/

theorem createAccount_number (name : String) (x : JsNum) (now : String) (draws : List Draw)
    (s : List Account) :
    createAccount name (.number x) now draws s =
      if x.isNaN = true then some (.error "Invalid input", s)
      else if JsNum.lt x JsNum.zero = true then some (.error "Negative amount not accepted", s)
      else (generateAccountId s draws).map
        (fun id => (.successAccount (newAccount id name x now), s ++ [newAccount id name x now])) := by
  unfold createAccount
  simp only
  split
  · rfl
  · split
    · rfl
    · cases generateAccountId s draws <;> rfl

/-- C11, as stated, fails: on the store that holds an account for each of the 9000 ids
`ACC-1000`, ..., `ACC-9999`, the amount `250` is a number, is not `NaN` and is not
`< 0`, and yet `createAccount` does not succeed: it returns nothing, whatever
`Math.random()` yields. -/
theorem create_validation_counterexample :
    JsNum.isNaN (.fin 250) = false ∧ JsNum.lt (.fin 250) JsNum.zero = false ∧
      ∀ draws : List Draw,
        createAccount "Dave" (.number (.fin 250)) "t1" draws fullStore = none := by
  have h1 : JsNum.lt (.fin 250) JsNum.zero = false := by norm_num [JsNum.lt, JsNum.zero]
  refine ⟨rfl, h1, fun draws => ?_⟩
  simp [createAccount_number, JsNum.isNaN, h1, generateAccountId_fullStore]

/-- C11, amended. `createAccount` returns `{ error: 'Invalid input' }` exactly when the
amount is not a number or is `NaN`; it returns `{ error: 'Negative amount not accepted' }`
exactly when the amount is a number `< 0`; it returns no other error, and when it returns
an error the store is unchanged, so no account is added; and for every other amount it
succeeds, appending the new account, whenever one of the draws yields an id that no
account of the store has. -/
theorem create_validation (name : String) (amount : JsValue) (now : String)
    (draws : List Draw) (s : List Account) :
    (createAccount name amount now draws s = some (.error "Invalid input", s) ↔
      ∀ x, amount = .number x → x.isNaN = true) ∧
    (createAccount name amount now draws s = some (.error "Negative amount not accepted", s) ↔
      ∃ x, amount = .number x ∧ JsNum.lt x JsNum.zero = true) ∧
    (∀ r s2, createAccount name amount now draws s = some (r, s2) → r.isError = true →
      s2 = s ∧ (r = .error "Invalid input" ∨ r = .error "Negative amount not accepted")) ∧
    (∀ x, amount = .number x → x.isNaN = false → JsNum.lt x JsNum.zero = false →
      (∃ d ∈ draws, idTaken s (candidateId d) = false) →
      ∃ acct, createAccount name amount now draws s =
        some (.successAccount acct, s ++ [acct])) := by
  have hlt_nan : ∀ x : JsNum, x.isNaN = true → JsNum.lt x JsNum.zero = false := by
    intro x hx
    cases x <;> simp_all [JsNum.isNaN, JsNum.lt]
  cases amount with
  | number x =>
    refine ⟨?_, ?_, ?_, ?_⟩
    · rw [createAccount_number]
      by_cases h1 : x.isNaN = true
      · simp [h1]
      · by_cases h2 : JsNum.lt x JsNum.zero = true
        · simp [h1, h2]
        · cases generateAccountId s draws <;> simp [h1, h2]
    · rw [createAccount_number]
      by_cases h1 : x.isNaN = true
      · simp [h1, hlt_nan x h1]
      · by_cases h2 : JsNum.lt x JsNum.zero = true
        · simp [h1, h2]
        · cases generateAccountId s draws <;> simp [h1, h2]
    · intro r s2 h hr
      rw [createAccount_number] at h
      by_cases h1 : x.isNaN = true
      · rw [if_pos h1] at h
        simp only [Option.some.injEq, Prod.mk.injEq] at h
        exact ⟨h.2.symm, Or.inl h.1.symm⟩
      · by_cases h2 : JsNum.lt x JsNum.zero = true
        · rw [if_neg h1, if_pos h2] at h
          simp only [Option.some.injEq, Prod.mk.injEq] at h
          exact ⟨h.2.symm, Or.inr h.1.symm⟩
        · rw [if_neg h1, if_neg h2] at h
          cases hg : generateAccountId s draws with
          | none => rw [hg] at h; cases h
          | some id =>
            rw [hg] at h
            simp only [Option.map_some', Option.some.injEq, Prod.mk.injEq] at h
            rw [← h.1] at hr
            cases hr
    · intro y hy hnan hneg hdraw
      cases hy
      obtain ⟨id, hid⟩ := generateAccountId_of_unused hdraw
      exact ⟨newAccount id name x now, createAccount_of_generated hnan hneg hid⟩
  | string str =>
    refine ⟨by simp [createAccount], by simp [createAccount], ?_, by simp⟩
    intro r s2 h hr
    simp only [createAccount, Option.some.injEq, Prod.mk.injEq] at h
    exact ⟨h.2.symm, Or.inl h.1.symm⟩
  | undefined =>
    refine ⟨by simp [createAccount], by simp [createAccount], ?_, by simp⟩
    intro r s2 h hr
    simp only [createAccount, Option.some.injEq, Prod.mk.injEq] at h
    exact ⟨h.2.symm, Or.inl h.1.symm⟩

theorem create_validation_witness :
    createAccount "BadUser" (.number (.fin (-500))) "t0" [halfDraw] [] =
        some (.error "Negative amount not accepted", []) ∧
      createAccount "BadUser" (.string "abc") "t0" [halfDraw] [] =
        some (.error "Invalid input", []) ∧
      ∃ acct, createAccount "Bob" (.number (.fin 0)) "t1" [halfDraw, quarterDraw] [alice] =
        some (.successAccount acct, [alice] ++ [acct]) :=
  ⟨(create_validation "BadUser" (.number (.fin (-500))) "t0" [halfDraw] []).2.1.mpr
      ⟨.fin (-500), rfl, by norm_num [JsNum.lt, JsNum.zero]⟩,
    (create_validation "BadUser" (.string "abc") "t0" [halfDraw] []).1.mpr
      (fun x hx => by cases hx),
    (create_validation "Bob" (.number (.fin 0)) "t1" [halfDraw, quarterDraw] [alice]).2.2.2
      (.fin 0) rfl rfl (by norm_num [JsNum.lt, JsNum.zero])
      ⟨quarterDraw, by simp, by simp [idTaken, candidateId_quarterDraw, alice, newAccount]⟩⟩

/-! ## C12: order of the checks of a withdrawal -/

theorem run_create_rich :
    (Call.create "Rich" (.number .posInf) "t0" [halfDraw]).run [] =
      some (.successAccount richAccount, [richAccount]) := by
  have h : generateAccountId [] [halfDraw] = some "ACC-5500" := by
    rw [← candidateId_halfDraw]; rfl
  exact @createAccount_of_generated "Rich" .posInf "t0" [halfDraw] [] "ACC-5500" rfl rfl h

theorem withdraw_all_rich :
    withdrawFunds "ACC-5500" (.number .posInf) "t1" [richAccount] =
      (.successAccount brokeAccount, [brokeAccount]) := by
  decide

theorem reachable_brokeAccount : Reachable [brokeAccount] :=
  .step (.withdraw "ACC-5500" (.number .posInf) "t1") _ _ _
    (.step _ _ _ _ .empty trivial run_create_rich) trivial
    (congrArg some withdraw_all_rich)

theorem valid_iff_gt_zero (x : JsNum) :
    ¬ InvalidAmount (.number x) ↔ JsNum.gt x JsNum.zero = true := by
  cases x <;> simp [InvalidAmount, JsNum.isNaN, JsNum.le, JsNum.gt, JsNum.lt, JsNum.zero]

theorem not_gt_iff_le {x b : JsNum} (hx : x.isNaN = false) (hb : b.isNaN = false) :
    JsNum.gt x b = false ↔ JsNum.le x b = true := by
  cases x <;> cases b <;> simp_all [JsNum.isNaN, JsNum.le, JsNum.gt, JsNum.lt]

theorem withdrawFunds_of_checks {id : String} {x : JsNum} {now : String} {s : List Account}
    {acct : Account} (hacct : findAccount id s = some acct)
    (hpos : positiveAmount (.number x) = some x) (hgt : JsNum.gt x acct.balance = false) :
    withdrawFunds id (.number x) now s =
      (.successAccount (pushTx .WITHDRAWAL x now "Withdrawal" (debit x acct)),
        updateFirst id (fun a => pushTx .WITHDRAWAL x now "Withdrawal" (debit x a)) s) := by
  simp [withdrawFunds, hacct, hpos, hgt]

/-- C12, as stated, fails: the account `ACC-5500` of a store reached by
`createAccount('Rich', Infinity)` and `withdrawFunds('ACC-5500', Infinity)` has the
balance `NaN`; `withdrawFunds('ACC-5500', 5)` succeeds on that store, although
`5 <= balance` is false. -/
theorem withdraw_validation_counterexample :
    Reachable [brokeAccount] ∧
      findAccount "ACC-5500" [brokeAccount] = some brokeAccount ∧
      withdrawFunds "ACC-5500" (.number (.fin 5)) "t2" [brokeAccount] =
        (.successAccount brokeAccountAfterWithdrawal, [brokeAccountAfterWithdrawal]) ∧
      JsNum.le (.fin 5) brokeAccount.balance = false := by
  refine ⟨reachable_brokeAccount, by decide, ?_, by decide⟩
  norm_num [withdrawFunds, findAccount, brokeAccount, positiveAmount, JsNum.isNaN, JsNum.le,
    JsNum.zero, JsNum.gt, JsNum.lt, updateFirst, pushTx, debit, brokeAccountAfterWithdrawal,
    JsNum.sub_def, JsNum.sub]

/-- C12, amended. `withdrawFunds` returns `Account not found` when no account has the id,
whatever the amount; otherwise `Invalid amount` when the amount is not a number, is `NaN`
or is `<= 0`; otherwise `Insufficient funds` exactly when `amount > balance`; it succeeds
exactly when the account exists, the amount is a number `> 0` and `amount > balance` is
false; and when the balance of the account is not `NaN`, it succeeds exactly when the
amount is a number with `0 < amount <= balance`. -/
theorem withdraw_validation_order (s : List Account) (id : String) (amount : JsValue)
    (now : String) :
    ((∀ a ∈ s, a.id ≠ id) →
      (withdrawFunds id amount now s).1 = .error "Account not found") ∧
    ((∃ a ∈ s, a.id = id) → InvalidAmount amount →
      (withdrawFunds id amount now s).1 = .error "Invalid amount") ∧
    (∀ acct x, findAccount id s = some acct → ¬ InvalidAmount amount → amount = .number x →
      ((withdrawFunds id amount now s).1 = .error "Insufficient funds" ↔
        JsNum.gt x acct.balance = true)) ∧
    ((withdrawFunds id amount now s).1.isError = false ↔
      ∃ acct x, findAccount id s = some acct ∧ amount = .number x ∧
        JsNum.gt x JsNum.zero = true ∧ JsNum.gt x acct.balance = false) ∧
    (∀ acct, findAccount id s = some acct → acct.balance.isNaN = false →
      ((withdrawFunds id amount now s).1.isError = false ↔
        ∃ x, amount = .number x ∧ JsNum.gt x JsNum.zero = true ∧
          JsNum.le x acct.balance = true)) := by
  have hsucc : (withdrawFunds id amount now s).1.isError = false ↔
      ∃ acct x, findAccount id s = some acct ∧ amount = .number x ∧
        JsNum.gt x JsNum.zero = true ∧ JsNum.gt x acct.balance = false := by
    constructor
    · intro h
      cases hr : withdrawFunds id amount now s with
      | mk r s2 =>
        rw [hr] at h
        rcases withdrawFunds_returns hr with ⟨he, _⟩ | ⟨x, a, ha, hx, hgt, _, _⟩
        · simp only at h
          rw [he] at h
          cases h
        · obtain ⟨hx1, hx2, hx3⟩ := positiveAmount_eq_some.mp hx
          exact ⟨a, x, ha, hx1, (positive_gt_zero hx2 hx3).1, hgt⟩
    · rintro ⟨acct, x, hacct, rfl, hpos, hgt⟩
      rw [withdrawFunds_of_checks hacct (positiveAmount_of_gt_zero hpos) hgt]
      rfl
  refine ⟨?_, ?_, ?_, hsucc, ?_⟩
  · intro h
    simp [withdrawFunds, findAccount_eq_none.mpr h]
  · rintro ⟨a, ha, hid⟩ h
    obtain ⟨acct, hacct⟩ := findAccount_isSome_of_mem ha hid
    simp [withdrawFunds, hacct, positiveAmount_eq_none.mpr h]
  · rintro acct x hacct hvalid rfl
    have hx := positiveAmount_of_valid hvalid
    by_cases hgt : JsNum.gt x acct.balance = true
    · simp [withdrawFunds, hacct, hx, hgt]
    · simp [withdrawFunds, hacct, hx, hgt]
  · intro acct hacct hnan
    rw [hsucc]
    constructor
    · rintro ⟨acct2, x, hacct2, hx, hpos, hgt⟩
      rw [hacct] at hacct2
      cases hacct2
      exact ⟨x, hx, hpos, (not_gt_iff_le (gt_zero_positive hpos).1 hnan).mp hgt⟩
    · rintro ⟨x, hx, hpos, hle⟩
      exact ⟨acct, x, hacct, hx, hpos,
        (not_gt_iff_le (gt_zero_positive hpos).1 hnan).mpr hle⟩

theorem withdraw_validation_order_witness :
    findAccount "ACC-5500" [alice, bob] = some alice ∧
      ¬ InvalidAmount (.number (.fin 500)) ∧
      JsNum.gt (.fin 500) alice.balance = true ∧
      (withdrawFunds "ACC-5500" (.number (.fin 500)) "t2" [alice, bob]).1 =
        .error "Insufficient funds" :=
  have h1 : findAccount "ACC-5500" [alice, bob] = some alice := by
    simp [findAccount, alice, newAccount]
  have h2 : ¬ InvalidAmount (.number (.fin 500)) := by
    norm_num [InvalidAmount, JsNum.isNaN, JsNum.le, JsNum.zero]
  have h3 : JsNum.gt (.fin 500) alice.balance = true := by
    norm_num [JsNum.gt, JsNum.lt, alice, newAccount]
  ⟨h1, h2, h3,
    ((withdraw_validation_order [alice, bob] "ACC-5500" (.number (.fin 500)) "t2").2.2.1
      alice (.fin 500) h1 h2 rfl).mpr h3⟩

/-! ## C13: effect of a withdrawal -/

/-- C13, as stated, fails: the account `ACC-5500` opened with `Infinity` holds
`Infinity`, the amount `Infinity` satisfies `0 < amount <= balance` and is the whole
balance, and `withdrawFunds('ACC-5500', Infinity)` succeeds and leaves the balance
`Infinity - Infinity = NaN`, not `0`. -/
theorem withdraw_effect_counterexample :
    (Call.create "Rich" (.number .posInf) "t0" [halfDraw]).run [] =
        some (.successAccount richAccount, [richAccount]) ∧
      findAccount "ACC-5500" [richAccount] = some richAccount ∧
      JsNum.gt .posInf JsNum.zero = true ∧
      JsNum.le .posInf richAccount.balance = true ∧
      richAccount.balance = .posInf ∧
      withdrawFunds "ACC-5500" (.number .posInf) "t1" [richAccount] =
        (.successAccount brokeAccount, [brokeAccount]) ∧
      brokeAccount.balance = .nan ∧ brokeAccount.balance ≠ .fin 0 :=
  ⟨run_create_rich, by decide, by decide, by decide, rfl, withdraw_all_rich, rfl,
    by simp [brokeAccount]⟩

/-- C13, amended. When the first account with the id is `acct` and the amount is a number
with `0 < amount <= acct.balance` (equality included), `withdrawFunds` succeeds; the
account it returns is `acct` with balance `acct.balance - amount` and exactly one entry
appended to the end of its history, of type `WITHDRAWAL`, with the withdrawn amount, the
call's timestamp and `balanceAfter` the new balance; the store afterwards is the old store
with `acct` replaced in place by the returned account; and withdrawing the whole of a
finite balance leaves `0`. -/
theorem withdraw_effect (s : List Account) (id : String) (x : JsNum) (now : String)
    (acct : Account) (hacct : findAccount id s = some acct)
    (hpos : JsNum.gt x JsNum.zero = true) (hle : JsNum.le x acct.balance = true) :
    withdrawFunds id (.number x) now s =
      (.successAccount
        { acct with
          balance := acct.balance - x
          transactions := acct.transactions ++
            [{ type := .WITHDRAWAL, amount := x, timestamp := now,
               balanceAfter := acct.balance - x, description := "Withdrawal" }] },
       s.set (indexOfId id s)
        { acct with
          balance := acct.balance - x
          transactions := acct.transactions ++
            [{ type := .WITHDRAWAL, amount := x, timestamp := now,
               balanceAfter := acct.balance - x, description := "Withdrawal" }] }) ∧
    (∀ q : ℚ, acct.balance = .fin q → x = .fin q → acct.balance - x = .fin 0) := by
  constructor
  · rw [withdrawFunds_of_checks hacct (positiveAmount_of_gt_zero hpos) (le_balance_not_lt hle),
      updateFirst_eq_set hacct]
    rfl
  · intro q hb hx
    rw [hb, hx, JsNum.fin_sub_fin, sub_self]

theorem withdraw_effect_witness :
    findAccount "ACC-5500" [alice, bob] = some alice ∧
      JsNum.gt (.fin 100) JsNum.zero = true ∧ JsNum.le (.fin 100) alice.balance = true ∧
      (withdrawFunds "ACC-5500" (.number (.fin 100)) "t2" [alice, bob]).1 =
        .successAccount
          { alice with
            balance := .fin 0
            transactions := alice.transactions ++
              [{ type := .WITHDRAWAL, amount := .fin 100, timestamp := "t2",
                 balanceAfter := .fin 0, description := "Withdrawal" }] } := by
  have h1 : findAccount "ACC-5500" [alice, bob] = some alice := by
    simp [findAccount, alice, newAccount]
  have h2 : JsNum.gt (.fin 100) JsNum.zero = true := by
    norm_num [JsNum.gt, JsNum.lt, JsNum.zero]
  have h3 : JsNum.le (.fin 100) alice.balance = true := by
    norm_num [JsNum.le, alice, newAccount]
  have h4 := withdraw_effect [alice, bob] "ACC-5500" (.fin 100) "t2" alice h1 h2 h3
  refine ⟨h1, h2, h3, ?_⟩
  rw [h4.1, h4.2 100 rfl rfl]

/-! ## C14: validation in `depositFunds` -/

theorem depositFunds_of_checks {id : String} {x : JsNum} {now : String} {s : List Account}
    {acct : Account} (hacct : findAccount id s = some acct)
    (hpos : positiveAmount (.number x) = some x) :
    depositFunds id (.number x) now s =
      (.successAccount (pushTx .DEPOSIT x now "Deposit" (credit x acct)),
        updateFirst id (fun a => pushTx .DEPOSIT x now "Deposit" (credit x a)) s) := by
  simp [depositFunds, hacct, hpos]

/-- C14. Deposit validation: `depositFunds` returns `Account not found` when no account
has the id, whatever the amount; when an account has the id it returns `Invalid amount`
exactly when the amount is not a number, is `NaN` or is `<= 0` (so `0` is rejected); and
it succeeds exactly when an account has the id and the amount is a number `> 0`. -/
theorem deposit_validation (s : List Account) (id : String) (amount : JsValue)
    (now : String) :
    ((∀ a ∈ s, a.id ≠ id) →
      (depositFunds id amount now s).1 = .error "Account not found") ∧
    ((∃ a ∈ s, a.id = id) →
      ((depositFunds id amount now s).1 = .error "Invalid amount" ↔ InvalidAmount amount)) ∧
    ((depositFunds id amount now s).1.isError = false ↔
      (∃ a ∈ s, a.id = id) ∧ ∃ x, amount = .number x ∧ JsNum.gt x JsNum.zero = true) := by
  refine ⟨?_, ?_, ?_⟩
  · intro h
    simp [depositFunds, findAccount_eq_none.mpr h]
  · rintro ⟨a, ha, hid⟩
    obtain ⟨acct, hacct⟩ := findAccount_isSome_of_mem ha hid
    cases hp : positiveAmount amount with
    | none =>
      have hinv := positiveAmount_eq_none.mp hp
      simp [depositFunds, hacct, hp, hinv]
    | some x =>
      have hvalid : ¬ InvalidAmount amount := by
        intro hinv
        rw [positiveAmount_eq_none.mpr hinv] at hp
        cases hp
      simp [depositFunds, hacct, hp, hvalid]
  · constructor
    · intro h
      cases hr : depositFunds id amount now s with
      | mk r s2 =>
        rw [hr] at h
        rcases depositFunds_returns hr with ⟨he, _⟩ | ⟨x, a, ha, hx, _, _⟩
        · simp only at h
          rw [he] at h
          cases h
        · obtain ⟨hx1, hx2, hx3⟩ := positiveAmount_eq_some.mp hx
          obtain ⟨hmem, hid⟩ := findAccount_some_mem ha
          exact ⟨⟨a, hmem, hid⟩, x, hx1, (positive_gt_zero hx2 hx3).1⟩
    · rintro ⟨⟨a, ha, hid⟩, x, rfl, hpos⟩
      obtain ⟨acct, hacct⟩ := findAccount_isSome_of_mem ha hid
      rw [depositFunds_of_checks hacct (positiveAmount_of_gt_zero hpos)]
      rfl

theorem deposit_validation_witness :
    (∃ a ∈ [alice, bob], a.id = "ACC-5500") ∧ InvalidAmount (.number (.fin 0)) ∧
      (depositFunds "ACC-5500" (.number (.fin 0)) "t2" [alice, bob]).1 =
        .error "Invalid amount" :=
  have h1 : ∃ a ∈ [alice, bob], a.id = "ACC-5500" := ⟨alice, by simp, rfl⟩
  have h2 : InvalidAmount (.number (.fin 0)) := by
    norm_num [InvalidAmount, JsNum.le, JsNum.zero]
  ⟨h1, h2,
    ((deposit_validation [alice, bob] "ACC-5500" (.number (.fin 0)) "t2").2.1 h1).mpr h2⟩

/-! ## C15: effect of a deposit -/

theorem findAccount_append_new {s : List Account} {acct : Account}
    (h : ∀ a ∈ s, a.id ≠ acct.id) : findAccount acct.id (s ++ [acct]) = some acct := by
  induction s with
  | nil => simp [findAccount]
  | cons b rest ih =>
    have hb : b.id ≠ acct.id := h b (List.mem_cons_self _ _)
    rw [List.cons_append, findAccount_cons, if_neg hb]
    exact ih (fun a ha => h a (List.mem_cons_of_mem _ ha))

/-- C15. Deposit effect: when the first account with the id is `acct` and the amount is a
number `> 0`, `depositFunds` succeeds; the account it returns is `acct` with balance
`acct.balance + amount` and a history that is the old history with exactly one entry
appended at the end, of type `DEPOSIT`, with the deposited amount, the call's timestamp
and `balanceAfter` the new balance; the store afterwards is the old store with `acct`
replaced in place by the returned account. In particular, a deposit into the account that
a successful `createAccount` has just returned gives a history of length 2. -/
theorem deposit_effect :
    (∀ (s : List Account) (id : String) (x : JsNum) (now : String) (acct : Account),
      findAccount id s = some acct → JsNum.gt x JsNum.zero = true →
      depositFunds id (.number x) now s =
        (.successAccount
          { acct with
            balance := acct.balance + x
            transactions := acct.transactions ++
              [{ type := .DEPOSIT, amount := x, timestamp := now,
                 balanceAfter := acct.balance + x, description := "Deposit" }] },
         s.set (indexOfId id s)
          { acct with
            balance := acct.balance + x
            transactions := acct.transactions ++
              [{ type := .DEPOSIT, amount := x, timestamp := now,
                 balanceAfter := acct.balance + x, description := "Deposit" }] })) ∧
    (∀ (name : String) (amount : JsValue) (now1 now2 : String) (draws : List Draw)
      (s s2 : List Account) (acct : Account) (x : JsNum),
      createAccount name amount now1 draws s = some (.successAccount acct, s2) →
      JsNum.gt x JsNum.zero = true →
      ∃ updated s3, depositFunds acct.id (.number x) now2 s2 = (.successAccount updated, s3) ∧
        updated.transactions.length = 2) := by
  have hfirst : ∀ (s : List Account) (id : String) (x : JsNum) (now : String) (acct : Account),
      findAccount id s = some acct → JsNum.gt x JsNum.zero = true →
      depositFunds id (.number x) now s =
        (.successAccount
          { acct with
            balance := acct.balance + x
            transactions := acct.transactions ++
              [{ type := .DEPOSIT, amount := x, timestamp := now,
                 balanceAfter := acct.balance + x, description := "Deposit" }] },
         s.set (indexOfId id s)
          { acct with
            balance := acct.balance + x
            transactions := acct.transactions ++
              [{ type := .DEPOSIT, amount := x, timestamp := now,
                 balanceAfter := acct.balance + x, description := "Deposit" }] }) := by
    intro s id x now acct hacct hpos
    rw [depositFunds_of_checks hacct (positiveAmount_of_gt_zero hpos),
      updateFirst_eq_set hacct]
    rfl
  refine ⟨hfirst, ?_⟩
  intro name amount now1 now2 draws s s2 acct x hcreate hpos
  obtain ⟨hfresh, hs2⟩ := createAccount_fresh hcreate
  have hfind : findAccount acct.id s2 = some acct := by
    rw [hs2]
    exact findAccount_append_new hfresh
  refine ⟨_, _, hfirst s2 acct.id x now2 acct hfind hpos, ?_⟩
  rcases createAccount_returns hcreate with ⟨he, _⟩ | ⟨y, id, _, _, _, _, hr, _⟩
  · cases he
  · cases hr
    rfl

theorem deposit_effect_witness :
    findAccount "ACC-5500" [alice, bob] = some alice ∧
      JsNum.gt (.fin 500) JsNum.zero = true ∧
      (depositFunds "ACC-5500" (.number (.fin 500)) "t2" [alice, bob]).1 =
        .successAccount
          { alice with
            balance := .fin 600
            transactions := alice.transactions ++
              [{ type := .DEPOSIT, amount := .fin 500, timestamp := "t2",
                 balanceAfter := .fin 600, description := "Deposit" }] } := by
  have h1 : findAccount "ACC-5500" [alice, bob] = some alice := by
    simp [findAccount, alice, newAccount]
  have h2 : JsNum.gt (.fin 500) JsNum.zero = true := by
    norm_num [JsNum.gt, JsNum.lt, JsNum.zero]
  refine ⟨h1, h2, ?_⟩
  rw [deposit_effect.1 [alice, bob] "ACC-5500" (.fin 500) "t2" alice h1 h2]
  norm_num [alice, newAccount]

/-! ## C16: frame and append-only histories -/

theorem extends_refl (named : List String) (a : Account) : Extends named a a :=
  ⟨rfl, rfl, rfl, ⟨[], by simp⟩, fun _ => rfl⟩

theorem forall₂_extends_refl (named : List String) (s : List Account) :
    List.Forall₂ (Extends named) s s :=
  List.forall₂_same.mpr (fun a _ => extends_refl named a)

theorem appendsOnly_credit (x : JsNum) : AppendsOnly (credit x) :=
  fun _ => ⟨rfl, rfl, rfl, [], by simp [credit]⟩

theorem appendsOnly_debit (x : JsNum) : AppendsOnly (debit x) :=
  fun _ => ⟨rfl, rfl, rfl, [], by simp [debit]⟩

theorem appendsOnly_pushTx (t : TxType) (x : JsNum) (now d : String) :
    AppendsOnly (pushTx t x now d) :=
  fun a => ⟨rfl, rfl, rfl, [⟨t, x, now, a.balance, d⟩], rfl⟩

theorem appendsOnly_comp {f g : Account → Account} (hf : AppendsOnly f) (hg : AppendsOnly g) :
    AppendsOnly (fun a => g (f a)) := by
  intro a
  obtain ⟨f1, f2, f3, m1, f4⟩ := hf a
  obtain ⟨g1, g2, g3, m2, g4⟩ := hg (f a)
  exact ⟨g1.trans f1, g2.trans f2, g3.trans f3, m1 ++ m2, by rw [g4, f4, List.append_assoc]⟩

/-- Mutating the first account with a named id by an append-only mutation keeps the
relation `Extends` to an earlier store. -/
theorem forall₂_extends_updateFirst {named : List String} {id : String}
    {f : Account → Account} (hid : id ∈ named) (hf : AppendsOnly f) {s s2 : List Account}
    (h : List.Forall₂ (Extends named) s s2) :
    List.Forall₂ (Extends named) s (updateFirst id f s2) := by
  induction h with
  | nil => exact List.Forall₂.nil
  | cons hab _ ih =>
    rename_i a b l1 l2 hrest
    rw [updateFirst_cons]
    by_cases hb : b.id = id
    · rw [if_pos hb]
      refine List.Forall₂.cons ?_ hrest
      obtain ⟨h1, h2, h3, ⟨m, h4⟩, _⟩ := hab
      obtain ⟨f1, f2, f3, m2, f4⟩ := hf b
      refine ⟨f1.trans h1, f2.trans h2, f3.trans h3, ⟨m ++ m2, ?_⟩, ?_⟩
      · rw [f4, h4, List.append_assoc]
      · intro hnot
        exact absurd (by rw [← h1, hb]; exact hid) hnot
    · rw [if_neg hb]
      exact List.Forall₂.cons hab ih

theorem depositFunds_frame (id : String) (amount : JsValue) (now : String)
    (s : List Account) :
    List.Forall₂ (Extends [id]) s (depositFunds id amount now s).2 := by
  cases hr : depositFunds id amount now s with
  | mk r s2 =>
    rcases depositFunds_returns hr with ⟨_, rfl⟩ | ⟨x, a, _, _, _, rfl⟩
    · exact forall₂_extends_refl _ _
    · exact forall₂_extends_updateFirst (by simp)
        (appendsOnly_comp (appendsOnly_credit x) (appendsOnly_pushTx _ _ _ _))
        (forall₂_extends_refl _ _)

theorem withdrawFunds_frame (id : String) (amount : JsValue) (now : String)
    (s : List Account) :
    List.Forall₂ (Extends [id]) s (withdrawFunds id amount now s).2 := by
  cases hr : withdrawFunds id amount now s with
  | mk r s2 =>
    rcases withdrawFunds_returns hr with ⟨_, rfl⟩ | ⟨x, a, _, _, _, _, rfl⟩
    · exact forall₂_extends_refl _ _
    · exact forall₂_extends_updateFirst (by simp)
        (appendsOnly_comp (appendsOnly_debit x) (appendsOnly_pushTx _ _ _ _))
        (forall₂_extends_refl _ _)

theorem transferFunds_frame (fromId toId : String) (amount : JsValue) (now : String)
    (s : List Account) :
    List.Forall₂ (Extends [fromId, toId]) s (transferFunds fromId toId amount now s).2 := by
  cases hr : transferFunds fromId toId amount now s with
  | mk r s2 =>
    rcases transferFunds_returns hr with ⟨_, rfl⟩ | ⟨x, a, b, _, _, _, _, _, rfl⟩
    · exact forall₂_extends_refl _ _
    · exact forall₂_extends_updateFirst (by simp) (appendsOnly_pushTx _ _ _ _)
        (forall₂_extends_updateFirst (by simp) (appendsOnly_pushTx _ _ _ _)
          (forall₂_extends_updateFirst (by simp) (appendsOnly_credit x)
            (forall₂_extends_updateFirst (by simp) (appendsOnly_debit x)
              (forall₂_extends_refl _ _))))

/-- C16. Frame and append-only history: after every call of `depositFunds`,
`withdrawFunds` or `transferFunds`, successful or rejected, the store holds as many
accounts as before, and the account at each position has the id, holder name and creation
time of the account that was at that position; its earlier history is an initial segment
of its history, entries being appended at the end only; and it is the very same account
unless its id is an id named by the call. `createAccount` removes and changes no account
and adds at most the one it returns, at the end; `deleteAccount` adds and changes no
account and removes at most one. -/
theorem frame_append_only (s : List Account) (now : String) :
    (∀ id amount, List.Forall₂ (Extends [id]) s (depositFunds id amount now s).2) ∧
    (∀ id amount, List.Forall₂ (Extends [id]) s (withdrawFunds id amount now s).2) ∧
    (∀ fromId toId amount,
      List.Forall₂ (Extends [fromId, toId]) s (transferFunds fromId toId amount now s).2) ∧
    (∀ id amount, (depositFunds id amount now s).2.length = s.length ∧
      (withdrawFunds id amount now s).2.length = s.length) ∧
    (∀ fromId toId amount, (transferFunds fromId toId amount now s).2.length = s.length) ∧
    (∀ name amount draws r s2, createAccount name amount now draws s = some (r, s2) →
      s2 = s ∨ ∃ acct, r = .successAccount acct ∧ s2 = s ++ [acct]) ∧
    (∀ id, (deleteAccount id s).2 = s ∨
      (List.Sublist (deleteAccount id s).2 s ∧ (deleteAccount id s).2.length + 1 = s.length)) := by
  refine ⟨fun id amount => depositFunds_frame id amount now s,
    fun id amount => withdrawFunds_frame id amount now s,
    fun fromId toId amount => transferFunds_frame fromId toId amount now s,
    fun id amount => ⟨(depositFunds_frame id amount now s).length_eq.symm,
      (withdrawFunds_frame id amount now s).length_eq.symm⟩,
    fun fromId toId amount => (transferFunds_frame fromId toId amount now s).length_eq.symm,
    ?_, ?_⟩
  · intro name amount draws r s2 h
    rcases createAccount_returns h with ⟨_, hs⟩ | ⟨x, id, _, _, _, _, hr, hs⟩
    · exact Or.inl hs
    · exact Or.inr ⟨_, hr, hs⟩
  · intro id
    cases hr : deleteAccount id s with
    | mk r s2 =>
      rcases deleteAccount_returns hr with ⟨_, hs⟩ | ⟨hsucc, hs⟩
      · exact Or.inl hs
      · right
        have hlt : s.findIdx (fun a => a.id == id) < s.length := by
          by_contra hge
          unfold deleteAccount at hr
          have hle := @List.findIdx_le_length _ (fun a : Account => a.id == id) s
          have heq : s.findIdx (fun a => a.id == id) = s.length := by omega
          simp only [heq, if_true, Prod.mk.injEq] at hr
          rw [← hr.1] at hsucc
          cases hsucc
        simp only
        rw [hs]
        exact ⟨List.eraseIdx_sublist _ _, by rw [List.length_eraseIdx]; simp [hlt]; omega⟩

theorem frame_append_only_witness :
    List.Forall₂ (Extends ["ACC-5500", "ACC-3250"]) [alice, bob]
        (transferFunds "ACC-5500" "ACC-3250" (.number (.fin 100)) "t2" [alice, bob]).2 ∧
      createAccount "Bob" (.number (.fin 0)) "t1" [halfDraw, quarterDraw] [alice] =
        some (.successAccount bob, [alice, bob]) ∧
      ([alice, bob] = [alice] ∨
        ∃ acct, Result.successAccount bob = .successAccount acct ∧
          [alice, bob] = [alice] ++ [acct]) :=
  ⟨(frame_append_only [alice, bob] "t2").2.2.1 "ACC-5500" "ACC-3250" (.number (.fin 100)),
    run_create_bob,
    (frame_append_only [alice] "t1").2.2.2.2.2.1 "Bob" (.number (.fin 0))
      [halfDraw, quarterDraw] (.successAccount bob) [alice, bob] run_create_bob⟩

/-! ## C17: histories are never empty -/

theorem seedFirst_appendsOnly {f : Account → Account} (hf : AppendsOnly f) {a : Account}
    (h : SeedFirst a) : SeedFirst (f a) := by
  obtain ⟨t, rest, ht, h1, h2, h3, h4⟩ := h
  obtain ⟨_, _, f3, more, f4⟩ := hf a
  exact ⟨t, rest ++ more, by rw [f4, ht]; rfl, h1, h2, by rw [f3]; exact h3, h4⟩

theorem keeps_seedFirst (c : Call) : c.Keeps SeedFirst := by
  cases c with
  | create name amount now draws =>
    intro x id _ _ _
    exact ⟨_, [], rfl, rfl, rfl, rfl, rfl⟩
  | deposit id amount now =>
    intro x a _ h
    exact seedFirst_appendsOnly
      (appendsOnly_comp (appendsOnly_credit x) (appendsOnly_pushTx _ _ _ _)) h
  | withdraw id amount now =>
    intro x a _ _ h
    exact seedFirst_appendsOnly
      (appendsOnly_comp (appendsOnly_debit x) (appendsOnly_pushTx _ _ _ _)) h
  | transfer fromId toId amount now =>
    intro x _
    refine ⟨fun _ => ⟨fun a _ h => ?_, fun a h => ?_⟩, fun _ a _ h => ?_⟩
    · exact seedFirst_appendsOnly
        (appendsOnly_comp (appendsOnly_debit x) (appendsOnly_pushTx _ _ _ _)) h
    · exact seedFirst_appendsOnly
        (appendsOnly_comp (appendsOnly_credit x) (appendsOnly_pushTx _ _ _ _)) h
    · exact seedFirst_appendsOnly (appendsOnly_pushTx _ _ _ _)
        (seedFirst_appendsOnly (appendsOnly_pushTx _ _ _ _)
          (seedFirst_appendsOnly (appendsOnly_credit x)
            (seedFirst_appendsOnly (appendsOnly_debit x) h)))
  | delete id => trivial

theorem viewTransactionHistory_result (id : String) (s : List Account) :
    viewTransactionHistory id s =
      match findAccount id s with
      | none => (.error "Account not found", s)
      | some account =>
        if account.transactions = [] then (.error "No transactions found", s)
        else (.successTransactions account.transactions, s) := by
  unfold viewTransactionHistory
  cases findAccount id s with
  | none => rfl
  | some account =>
    simp only [List.length_eq_zero]

/-- C17. History is never empty: in every store reachable from the empty store by calls
of the core operations, every account has at least one transaction, and its first
transaction is the seed written at creation, a `DEPOSIT` described as `Initial deposit`
and stamped with the creation time of the account; so `viewTransactionHistory` never
returns `No transactions found` on such a store. The branch is not dead code: it is taken
on a store whose account has an empty history, which is therefore not reachable. -/
theorem history_never_empty :
    (∀ s, Reachable s →
      (∀ a ∈ s, a.transactions ≠ [] ∧
        ∃ t rest, a.transactions = t :: rest ∧ t.type = .DEPOSIT ∧
          t.description = "Initial deposit" ∧ t.timestamp = a.createdAt ∧
          t.balanceAfter = t.amount) ∧
      ∀ id, (viewTransactionHistory id s).1 ≠ .error "No transactions found") ∧
    ((viewTransactionHistory "ACC-1234" emptyHistoryStore).1 =
        .error "No transactions found" ∧ ¬ Reachable emptyHistoryStore) := by
  have hreach : ∀ s, Reachable s →
      (∀ a ∈ s, a.transactions ≠ [] ∧
        ∃ t rest, a.transactions = t :: rest ∧ t.type = .DEPOSIT ∧
          t.description = "Initial deposit" ∧ t.timestamp = a.createdAt ∧
          t.balanceAfter = t.amount) ∧
      ∀ id, (viewTransactionHistory id s).1 ≠ .error "No transactions found" := by
    intro s hs
    have hseed : ∀ a ∈ s, SeedFirst a := reachableBy_forall (fun c _ => keeps_seedFirst c) hs
    have hne : ∀ a ∈ s, a.transactions ≠ [] := by
      intro a ha
      obtain ⟨t, rest, ht, _⟩ := hseed a ha
      rw [ht]
      exact List.cons_ne_nil _ _
    refine ⟨fun a ha => ⟨hne a ha, hseed a ha⟩, ?_⟩
    intro id
    rw [viewTransactionHistory_result]
    cases hf : findAccount id s with
    | none => simp
    | some account =>
      have hmem := (findAccount_some_mem hf).1
      simp [hne account hmem]
  have hview : (viewTransactionHistory "ACC-1234" emptyHistoryStore).1 =
      .error "No transactions found" := by decide
  refine ⟨hreach, hview, ?_⟩
  intro h
  exact (hreach _ h).2 "ACC-1234" hview

theorem history_never_empty_witness :
    Reachable [alice, bob] ∧
      (∀ a ∈ [alice, bob], a.transactions ≠ [] ∧
        ∃ t rest, a.transactions = t :: rest ∧ t.type = .DEPOSIT ∧
          t.description = "Initial deposit" ∧ t.timestamp = a.createdAt ∧
          t.balanceAfter = t.amount) ∧
      ∀ id, (viewTransactionHistory id [alice, bob]).1 ≠ .error "No transactions found" :=
  ⟨reachable_alice_bob, history_never_empty.1 [alice, bob] reachable_alice_bob⟩

/-! ## C18 and C19: the read operations -/

theorem findAccount_eq_some_iff {id : String} {s : List Account} {acct : Account} :
    findAccount id s = some acct ↔ IsFirstWithId id s acct := by
  unfold findAccount IsFirstWithId
  rw [List.find?_eq_some]
  constructor
  · rintro ⟨hid, l1, l2, hs, hl1⟩
    exact ⟨l1, l2, hs, by simpa using hid, fun b hb => by simpa using hl1 b hb⟩
  · rintro ⟨l1, l2, hs, hid, hl1⟩
    exact ⟨by simpa using hid, l1, l2, hs, fun b hb => by simpa using hl1 b hb⟩

/-- C18. History lookup: for every store and id, `viewTransactionHistory` returns
`Account not found` exactly when no account has the id; it returns
`No transactions found` exactly when the first account with the id has an empty
transaction list; otherwise it returns success with the whole transaction list of the
first account with the id, in stored order; and the store is the same afterwards. -/
theorem history_lookup (s : List Account) (id : String) :
    ((viewTransactionHistory id s).1 = .error "Account not found" ↔ ∀ a ∈ s, a.id ≠ id) ∧
    ((viewTransactionHistory id s).1 = .error "No transactions found" ↔
      ∃ acct, IsFirstWithId id s acct ∧ acct.transactions = []) ∧
    (∀ acct, IsFirstWithId id s acct → acct.transactions ≠ [] →
      (viewTransactionHistory id s).1 = .successTransactions acct.transactions) ∧
    (viewTransactionHistory id s).2 = s := by
  rw [viewTransactionHistory_result]
  cases hf : findAccount id s with
  | none =>
    have hnone := findAccount_eq_none.mp hf
    refine ⟨by simpa using hnone, ?_, ?_, rfl⟩
    · constructor
      · intro h
        exact absurd h (by simp)
      · rintro ⟨acct, hacct, _⟩
        rw [← findAccount_eq_some_iff, hf] at hacct
        cases hacct
    · intro acct hacct
      rw [← findAccount_eq_some_iff, hf] at hacct
      cases hacct
  | some account =>
    obtain ⟨hmem, hid⟩ := findAccount_some_mem hf
    have huniq : ∀ acct, IsFirstWithId id s acct → acct = account := by
      intro acct hacct
      rw [← findAccount_eq_some_iff, hf] at hacct
      cases hacct
      rfl
    by_cases he : account.transactions = []
    · refine ⟨?_, ?_, ?_, by simp [he]⟩
      · simp only [he, if_true]
        constructor
        · intro h; exact absurd h (by simp)
        · intro h; exact absurd hid (h account hmem)
      · simp only [he, if_true, true_iff]
        exact ⟨account, findAccount_eq_some_iff.mp hf, he⟩
      · intro acct hacct hne
        rw [huniq acct hacct] at hne
        exact absurd he hne
    · refine ⟨?_, ?_, ?_, by simp [he]⟩
      · simp only [he, if_false]
        constructor
        · intro h; exact absurd h (by simp)
        · intro h; exact absurd hid (h account hmem)
      · simp only [he, if_false]
        constructor
        · intro h; exact absurd h (by simp)
        · rintro ⟨acct, hacct, hnil⟩
          rw [huniq acct hacct] at hnil
          exact absurd hnil he
      · intro acct hacct _
        rw [huniq acct hacct]
        simp [he]

theorem history_lookup_witness :
    IsFirstWithId "ACC-3250" [alice, bob] bob ∧ bob.transactions ≠ [] ∧
      (viewTransactionHistory "ACC-3250" [alice, bob]).1 =
        .successTransactions bob.transactions :=
  have h1 : IsFirstWithId "ACC-3250" [alice, bob] bob :=
    ⟨[alice], [], rfl, rfl, by simp [alice, newAccount]⟩
  have h2 : bob.transactions ≠ [] := by simp [bob, newAccount]
  ⟨h1, h2, (history_lookup [alice, bob] "ACC-3250").2.2.1 bob h1 h2⟩

/-- C19. Pure reads: `viewAccountDetails` returns `Account not found` exactly when no
account of the store has the id, and otherwise returns success with the first account of
the store that has the id, with all its fields; `listAllAccounts` returns
`No accounts found` exactly when the store is empty, and otherwise returns success with
the accounts of the store in store order; and after either call the store is the same. -/
theorem pure_reads (s : List Account) (id : String) :
    ((viewAccountDetails id s).1 = .error "Account not found" ↔ ∀ a ∈ s, a.id ≠ id) ∧
    (∀ acct, IsFirstWithId id s acct →
      (viewAccountDetails id s).1 = .successAccount acct) ∧
    ((∃ a ∈ s, a.id = id) →
      ∃ acct, acct ∈ s ∧ acct.id = id ∧ IsFirstWithId id s acct ∧
        (viewAccountDetails id s).1 = .successAccount acct) ∧
    (viewAccountDetails id s).2 = s ∧
    ((listAllAccounts s).1 = .error "No accounts found" ↔ s = []) ∧
    (s ≠ [] → (listAllAccounts s).1 = .successAccounts s) ∧
    (listAllAccounts s).2 = s := by
  refine ⟨?_, ?_, ?_, ?_, ?_, ?_, ?_⟩
  · unfold viewAccountDetails
    cases hf : findAccount id s with
    | none => simpa using findAccount_eq_none.mp hf
    | some account =>
      obtain ⟨hmem, hid⟩ := findAccount_some_mem hf
      simp only [false_iff]
      constructor
      · intro h; exact absurd h (by simp)
      · intro h; exact absurd hid (h account hmem)
  · intro acct hacct
    simp [viewAccountDetails, findAccount_eq_some_iff.mpr hacct]
  · rintro ⟨a, ha, hid⟩
    obtain ⟨acct, hacct⟩ := findAccount_isSome_of_mem ha hid
    obtain ⟨hmem, hid2⟩ := findAccount_some_mem hacct
    exact ⟨acct, hmem, hid2, findAccount_eq_some_iff.mp hacct,
      by simp [viewAccountDetails, hacct]⟩
  · unfold viewAccountDetails
    cases findAccount id s <;> rfl
  · cases s with
    | nil => simp [listAllAccounts]
    | cons a rest => simp [listAllAccounts]
  · intro hne
    cases s with
    | nil => exact absurd rfl hne
    | cons a rest => simp [listAllAccounts]
  · cases s with
    | nil => rfl
    | cons a rest => simp [listAllAccounts]

theorem pure_reads_witness :
    IsFirstWithId "ACC-3250" [alice, bob] bob ∧
      (viewAccountDetails "ACC-3250" [alice, bob]).1 = .successAccount bob ∧
      [alice, bob] ≠ [] ∧
      (listAllAccounts [alice, bob]).1 = .successAccounts [alice, bob] :=
  have h1 : IsFirstWithId "ACC-3250" [alice, bob] bob :=
    ⟨[alice], [], rfl, rfl, by simp [alice, newAccount]⟩
  ⟨h1, (pure_reads [alice, bob] "ACC-3250").2.1 bob h1, by simp,
    (pure_reads [alice, bob] "ACC-3250").2.2.2.2.2.1 (by simp)⟩

/-! ## C20: what the id generator returns -/

theorem toDigits_four (m : ℕ) (hlo : 1000 ≤ m) (hhi : m ≤ 9999) :
    Nat.toDigits 10 m =
      [Nat.digitChar (m / 1000), Nat.digitChar (m / 100 % 10), Nat.digitChar (m / 10 % 10),
        Nat.digitChar (m % 10)] := by
  obtain ⟨k, rfl⟩ : ∃ k, m = k + 3 := ⟨m - 3, by omega⟩
  have h1 : (k + 3) / 10 ≠ 0 := by omega
  have h2 : (k + 3) / 10 / 10 ≠ 0 := by omega
  have h3 : (k + 3) / 10 / 10 / 10 ≠ 0 := by omega
  have h4 : (k + 3) / 10 / 10 / 10 / 10 = 0 := by omega
  have e2 : (k + 3) / 10 / 10 = (k + 3) / 100 := by omega
  have e3 : (k + 3) / 10 / 10 / 10 = (k + 3) / 1000 := by omega
  have e4 : (k + 3) / 1000 % 10 = (k + 3) / 1000 := by omega
  simp only [Nat.toDigits, Nat.toDigitsCore, h1, h2, h3, h4, if_true, if_false]
  rw [e3, e2, e4]

theorem isDigit_digitChar (d : ℕ) (h : d < 10) : (Nat.digitChar d).isDigit = true := by
  interval_cases d <;> rfl

theorem toString_int_four (n : ℤ) (hlo : 1000 ≤ n) (hhi : n ≤ 9999) :
    ∃ d1 d2 d3 d4 : Char, d1.isDigit = true ∧ d2.isDigit = true ∧ d3.isDigit = true ∧
      d4.isDigit = true ∧ toString n = String.mk [d1, d2, d3, d4] := by
  obtain ⟨m, rfl⟩ : ∃ m : ℕ, n = (m : ℤ) := ⟨n.toNat, by omega⟩
  have hlo2 : 1000 ≤ m := by omega
  have hhi2 : m ≤ 9999 := by omega
  refine ⟨_, _, _, _, isDigit_digitChar (m / 1000) (by omega),
    isDigit_digitChar (m / 100 % 10) (by omega), isDigit_digitChar (m / 10 % 10) (by omega),
    isDigit_digitChar (m % 10) (by omega), ?_⟩
  show (Nat.toDigits 10 m).asString = _
  rw [toDigits_four m hlo2 hhi2]
  rfl

theorem candidateNumber_onto (n : ℤ) (hlo : 1000 ≤ n) (hhi : n ≤ 9999) :
    ∃ r : Draw, candidateNumber r = n := by
  have h0 : (0 : ℚ) ≤ ((n : ℚ) - 1000) / 9000 := by
    have : (1000 : ℚ) ≤ n := by exact_mod_cast hlo
    apply div_nonneg <;> linarith
  have h1 : ((n : ℚ) - 1000) / 9000 < 1 := by
    have : (n : ℚ) ≤ 9999 := by exact_mod_cast hhi
    rw [div_lt_one (by norm_num)]
    linarith
  refine ⟨⟨((n : ℚ) - 1000) / 9000, h0, h1⟩, ?_⟩
  unfold candidateNumber
  have h : (1000 : ℚ) + ((n : ℚ) - 1000) / 9000 * 9000 = (n : ℚ) := by
    field_simp
  show ⌊(1000 : ℚ) + ((n : ℚ) - 1000) / 9000 * 9000⌋ = n
  rw [h, Int.floor_intCast]

/-- The loop returns exactly the first candidate of the draw sequence that no account of
the store has. -/
theorem generateAccountId_eq_some_iff (s : List Account) (draws : List Draw) (id : String) :
    generateAccountId s draws = some id ↔
      ∃ pre r post, draws = pre ++ r :: post ∧ id = candidateId r ∧
        (∀ a ∈ s, a.id ≠ candidateId r) ∧
        ∀ d ∈ pre, ∃ a ∈ s, a.id = candidateId d := by
  induction draws with
  | nil =>
    simp only [generateAccountId]
    constructor
    · intro h
      cases h
    · rintro ⟨pre, r, post, h, _⟩
      cases pre <;> cases h
  | cons d rest ih =>
    simp only [generateAccountId]
    by_cases hd : idTaken s (candidateId d) = true
    · have htaken : ∃ a ∈ s, a.id = candidateId d := by
        unfold idTaken at hd
        simpa using hd
      rw [if_pos hd, ih]
      constructor
      · rintro ⟨pre, r, post, h, hid, hfree, hpre⟩
        refine ⟨d :: pre, r, post, by rw [h]; rfl, hid, hfree, ?_⟩
        intro e he
        rcases List.mem_cons.mp he with rfl | he
        · exact htaken
        · exact hpre e he
      · rintro ⟨pre, r, post, h, hid, hfree, hpre⟩
        cases pre with
        | nil =>
          simp only [List.nil_append, List.cons.injEq] at h
          obtain ⟨a, ha, haid⟩ := htaken
          rw [h.1] at haid
          exact absurd haid (hfree a ha)
        | cons e pre2 =>
          simp only [List.cons_append, List.cons.injEq] at h
          exact ⟨pre2, r, post, h.2, hid, hfree,
            fun e2 he2 => hpre e2 (List.mem_cons_of_mem _ he2)⟩
    · have hfree : ∀ a ∈ s, a.id ≠ candidateId d :=
        idTaken_eq_false.mp (by simpa using hd)
      rw [if_neg hd]
      constructor
      · intro h
        cases h
        exact ⟨[], d, rest, rfl, rfl, hfree, by simp⟩
      · rintro ⟨pre, r, post, h, hid, _, hpre⟩
        cases pre with
        | nil =>
          simp only [List.nil_append, List.cons.injEq] at h
          rw [hid, h.1]
        | cons e pre2 =>
          simp only [List.cons_append, List.cons.injEq] at h
          obtain ⟨a, ha, haid⟩ := hpre e (List.mem_cons_self _ _)
          rw [← h.1] at haid
          exact absurd haid (hfree a ha)

/-- C20. Id generator result: for every draw `r` of `Math.random()`, a number with
`0 <= r < 1`, the candidate number `floor(1000 + 9000 * r)` is an integer between 1000
and 9999 (for rational and for real `r`), the candidate id is `ACC-` followed by exactly
four decimal digits, and every integer between 1000 and 9999 is the candidate number of
some draw; for every store and draw sequence, `generateAccountId` returns an id exactly
when the id is the first candidate of the sequence that is the id of no account of the
store; the generator only reads the store, and the store that `createAccount` then
appends to is the one it was given. -/
theorem id_generator_result :
    (∀ r : Draw, 1000 ≤ candidateNumber r ∧ candidateNumber r ≤ 9999) ∧
    (∀ r : ℝ, 0 ≤ r → r < 1 → 1000 ≤ ⌊1000 + 9000 * r⌋ ∧ ⌊1000 + 9000 * r⌋ ≤ 9999) ∧
    (∀ r : Draw, ∃ d1 d2 d3 d4 : Char, d1.isDigit = true ∧ d2.isDigit = true ∧
      d3.isDigit = true ∧ d4.isDigit = true ∧
      candidateId r = "ACC-" ++ String.mk [d1, d2, d3, d4]) ∧
    (∀ n : ℤ, 1000 ≤ n → n ≤ 9999 → ∃ r : Draw, candidateNumber r = n) ∧
    (∀ (s : List Account) (draws : List Draw) (id : String),
      generateAccountId s draws = some id ↔
        ∃ pre r post, draws = pre ++ r :: post ∧ id = candidateId r ∧
          (∀ a ∈ s, a.id ≠ candidateId r) ∧
          ∀ d ∈ pre, ∃ a ∈ s, a.id = candidateId d) ∧
    (∀ (name : String) (amount : JsValue) (now : String) (draws : List Draw)
      (s s2 : List Account) (acct : Account),
      createAccount name amount now draws s = some (.successAccount acct, s2) →
      generateAccountId s draws = some acct.id ∧ s2 = s ++ [acct]) := by
  refine ⟨candidateNumber_bounds, ?_, ?_, candidateNumber_onto,
    generateAccountId_eq_some_iff, ?_⟩
  · intro r h0 h1
    constructor
    · apply Int.le_floor.mpr
      push_cast
      linarith
    · have h : ⌊1000 + 9000 * r⌋ < 10000 := by
        apply Int.floor_lt.mpr
        push_cast
        linarith
      omega
  · intro r
    obtain ⟨hlo, hhi⟩ := candidateNumber_bounds r
    obtain ⟨d1, d2, d3, d4, h1, h2, h3, h4, hs⟩ := toString_int_four _ hlo hhi
    exact ⟨d1, d2, d3, d4, h1, h2, h3, h4, by rw [candidateId, hs]⟩
  · intro name amount now draws s s2 acct h
    rcases createAccount_returns h with ⟨he, _⟩ | ⟨x, id, _, _, _, hid, hr, hs2⟩
    · cases he
    · cases hr
      exact ⟨hid, hs2⟩

theorem id_generator_result_witness :
    (1000 : ℤ) ≤ 5500 ∧ (5500 : ℤ) ≤ 9999 ∧ (∃ r : Draw, candidateNumber r = 5500) ∧
      (∃ pre r post, [halfDraw, quarterDraw] = pre ++ r :: post ∧
        "ACC-3250" = candidateId r ∧ (∀ a ∈ [alice], a.id ≠ candidateId r) ∧
        ∀ d ∈ pre, ∃ a ∈ [alice], a.id = candidateId d) ∧
      generateAccountId [alice] [halfDraw, quarterDraw] = some "ACC-3250" :=
  have h : ∃ pre r post, [halfDraw, quarterDraw] = pre ++ r :: post ∧
      "ACC-3250" = candidateId r ∧ (∀ a ∈ [alice], a.id ≠ candidateId r) ∧
      ∀ d ∈ pre, ∃ a ∈ [alice], a.id = candidateId d :=
    ⟨[halfDraw], quarterDraw, [], rfl, candidateId_quarterDraw.symm,
      by simp [candidateId_quarterDraw, alice, newAccount],
      by simp [candidateId_halfDraw, alice, newAccount]⟩
  ⟨by decide, by decide,
    id_generator_result.2.2.2.1 5500 (by decide) (by decide), h,
    (id_generator_result.2.2.2.2.1 [alice] [halfDraw, quarterDraw] "ACC-3250").mpr h⟩

/-! ## C21: a transfer from an account to itself -/

/-- Subtracting and then adding the same finite number gives the number back. This is a
law of the exact arithmetic of the finite case; binary64 arithmetic satisfies it when the
numbers involved are whole numbers up to `2^53`, not in general. -/
theorem JsNum.sub_add_cancel_fin (b : JsNum) (q : ℚ) : (b - .fin q) + .fin q = b := by
  cases b <;> simp [JsNum.sub_def, JsNum.add_def, JsNum.sub, JsNum.add]

theorem isSafeNat_sub {b x : JsNum} (hb : b.IsSafeNat) (hx : x.IsSafeNat)
    (hlt : JsNum.lt b x = false) : (b - x).IsSafeNat := by
  obtain ⟨n, rfl, hn⟩ := hb
  obtain ⟨m, rfl, _⟩ := hx
  have hmn : m ≤ n := by
    simp only [JsNum.lt, decide_eq_false_iff_not, not_lt] at hlt
    exact_mod_cast hlt
  exact ⟨n - m, by rw [JsNum.fin_sub_fin, Nat.cast_sub hmn], by omega⟩

/-- C21, as stated, fails: the account `ACC-5500` opened with `Infinity` holds
`Infinity`, the amount `Infinity` satisfies `0 < amount <= balance`, and
`transferFunds('ACC-5500', 'ACC-5500', Infinity)` succeeds and leaves the balance
`(Infinity - Infinity) + Infinity = NaN`, not the balance before the call. -/
theorem self_transfer_counterexample :
    (Call.create "Rich" (.number .posInf) "t0" [halfDraw]).run [] =
        some (.successAccount richAccount, [richAccount]) ∧
      findAccount "ACC-5500" [richAccount] = some richAccount ∧
      JsNum.gt .posInf JsNum.zero = true ∧
      JsNum.le .posInf richAccount.balance = true ∧
      transferFunds "ACC-5500" "ACC-5500" (.number .posInf) "t1" [richAccount] =
        (.success, [richAfterSelfTransfer]) ∧
      richAccount.balance = .posInf ∧ richAfterSelfTransfer.balance = .nan ∧
      richAfterSelfTransfer.balance ≠ richAccount.balance :=
  ⟨run_create_rich, by decide, by decide, by decide, by decide, rfl, rfl, by decide⟩

/-- C21, amended. When the first account with id `X` is `acct` and the amount is a number
with `0 < amount <= acct.balance`, `transferFunds(X, X, amount)` is not rejected: it
returns `{ success: true }`, and the store afterwards is the old store with `acct`
replaced in place by `acct` with the balance `(acct.balance - amount) + amount`, as the
two updates of the code compute it, and exactly two entries appended to its history, a
`TRANSFER_OUT` described as `To X` followed by a `TRANSFER_IN` described as `From X`, both
with the given amount, the timestamp of the call and `balanceAfter` equal to the balance
after the call; no other account changes. When the balance and the amount are
non-negative whole numbers up to `Number.MAX_SAFE_INTEGER`, so is the intermediate
balance, and the balance after the call is the balance before it. -/
theorem self_transfer (s : List Account) (id : String) (x : JsNum) (now : String)
    (acct : Account) (hacct : findAccount id s = some acct)
    (hpos : JsNum.gt x JsNum.zero = true) (hle : JsNum.le x acct.balance = true) :
    transferFunds id id (.number x) now s =
      (.success,
        s.set (indexOfId id s)
          { acct with
            balance := (acct.balance - x) + x
            transactions := acct.transactions ++
              [{ type := .TRANSFER_OUT, amount := x, timestamp := now,
                 balanceAfter := (acct.balance - x) + x, description := "To " ++ id },
               { type := .TRANSFER_IN, amount := x, timestamp := now,
                 balanceAfter := (acct.balance - x) + x, description := "From " ++ id }] }) ∧
    (acct.balance.IsSafeNat → x.IsSafeNat →
      (acct.balance - x).IsSafeNat ∧ (acct.balance - x) + x = acct.balance) := by
  constructor
  · rw [transferFunds_of_checks hacct hacct (positiveAmount_of_gt_zero hpos)
      (le_balance_not_lt hle), transfer_store_self, updateFirst_eq_set hacct]
    simp [pushTx, credit, debit]
  · intro hb hx
    refine ⟨isSafeNat_sub hb hx (le_balance_not_lt hle), ?_⟩
    obtain ⟨m, rfl, _⟩ := hx
    exact JsNum.sub_add_cancel_fin _ _

theorem self_transfer_witness :
    findAccount "ACC-5500" [alice, bob] = some alice ∧
      JsNum.gt (.fin 30) JsNum.zero = true ∧ JsNum.le (.fin 30) alice.balance = true ∧
      alice.balance.IsSafeNat ∧ JsNum.IsSafeNat (.fin 30) ∧
      transferFunds "ACC-5500" "ACC-5500" (.number (.fin 30)) "t2" [alice, bob] =
        (.success,
          [{ alice with
              transactions := alice.transactions ++
                [{ type := .TRANSFER_OUT, amount := .fin 30, timestamp := "t2",
                   balanceAfter := .fin 100, description := "To ACC-5500" },
                 { type := .TRANSFER_IN, amount := .fin 30, timestamp := "t2",
                   balanceAfter := .fin 100, description := "From ACC-5500" }] },
           bob]) := by
  have h1 : findAccount "ACC-5500" [alice, bob] = some alice := by
    simp [findAccount, alice, newAccount]
  have h2 : JsNum.gt (.fin 30) JsNum.zero = true := by
    norm_num [JsNum.gt, JsNum.lt, JsNum.zero]
  have h3 : JsNum.le (.fin 30) alice.balance = true := by
    norm_num [JsNum.le, alice, newAccount]
  have h4 : alice.balance.IsSafeNat := ⟨100, by norm_num [alice, newAccount], by norm_num⟩
  have h5 : JsNum.IsSafeNat (.fin 30) := ⟨30, by norm_num, by norm_num⟩
  have h := self_transfer [alice, bob] "ACC-5500" (.fin 30) "t2" alice h1 h2 h3
  refine ⟨h1, h2, h3, h4, h5, ?_⟩
  rw [h.1, (h.2 h4 h5).2]
  norm_num [indexOfId, List.findIdx_cons, alice, newAccount]
  exact ⟨by decide, by decide⟩

/-! ## C22: termination of the id generator -/

theorem generateAccountId_none_of_all_taken {s : List Account}
    (h : ∀ r : Draw, ∃ a ∈ s, a.id = candidateId r) (draws : List Draw) :
    generateAccountId s draws = none := by
  induction draws with
  | nil => rfl
  | cons r rest ih =>
    have hr : idTaken s (candidateId r) = true := by
      unfold idTaken
      simpa using h r
    simp [generateAccountId, hr, ih]

theorem fullStore_has_all (n : ℤ) (hlo : 1000 ≤ n) (hhi : n ≤ 9999) :
    ∃ a ∈ fullStore, a.id = "ACC-" ++ toString n := by
  refine ⟨newAccount ("ACC-" ++ toString (1000 + (((n - 1000).toNat : ℕ) : ℤ)))
    "Holder" (.fin 0) "t0", ?_, ?_⟩
  · unfold fullStore
    refine List.mem_map.mpr ⟨(n - 1000).toNat, ?_, rfl⟩
    rw [List.mem_range]
    omega
  · have h : 1000 + (((n - 1000).toNat : ℕ) : ℤ) = n := by omega
    simp only [newAccount]
    rw [h]

/-- C22. Id generator termination: given a sequence of draws one of which yields an id
that no account of the store has, `generateAccountId` returns, its result is the
candidate of the first such draw, and it does not depend on the draws after that one; a
store that leaves one of the ids `ACC-1000`, ..., `ACC-9999` unused admits such a draw;
and on a store that contains all 9000 ids the generator returns for no sequence of draws,
so `createAccount` with a valid amount returns nothing on such a store. -/
theorem id_generator_termination :
    (∀ (s : List Account) (draws : List Draw),
      (∃ r ∈ draws, ∀ a ∈ s, a.id ≠ candidateId r) →
      ∃ pre r post, draws = pre ++ r :: post ∧ (∀ a ∈ s, a.id ≠ candidateId r) ∧
        (∀ d ∈ pre, ∃ a ∈ s, a.id = candidateId d) ∧
        generateAccountId s draws = some (candidateId r) ∧
        ∀ more, generateAccountId s (pre ++ r :: more) = some (candidateId r)) ∧
    (∀ (s : List Account) (n : ℤ), 1000 ≤ n → n ≤ 9999 →
      (∀ a ∈ s, a.id ≠ "ACC-" ++ toString n) →
      ∃ r : Draw, candidateNumber r = n ∧
        generateAccountId s [r] = some ("ACC-" ++ toString n)) ∧
    (∀ (s : List Account),
      (∀ n : ℤ, 1000 ≤ n → n ≤ 9999 → ∃ a ∈ s, a.id = "ACC-" ++ toString n) →
      ∀ draws : List Draw, generateAccountId s draws = none ∧
        ∀ (name : String) (x : JsNum) (now : String), x.isNaN = false →
          JsNum.lt x JsNum.zero = false →
          createAccount name (.number x) now draws s = none) := by
  refine ⟨?_, ?_, ?_⟩
  · intro s draws h
    have h2 : ∃ r ∈ draws, idTaken s (candidateId r) = false := by
      obtain ⟨r, hr, hfree⟩ := h
      exact ⟨r, hr, idTaken_eq_false.mpr hfree⟩
    obtain ⟨id, hid⟩ := generateAccountId_of_unused h2
    obtain ⟨pre, r, post, hd, rfl, hfree, hpre⟩ :=
      (generateAccountId_eq_some_iff s draws id).mp hid
    refine ⟨pre, r, post, hd, hfree, hpre, hid, fun more => ?_⟩
    exact (generateAccountId_eq_some_iff s _ _).mpr ⟨pre, r, more, rfl, rfl, hfree, hpre⟩
  · intro s n hlo hhi hfree
    obtain ⟨r, hr⟩ := candidateNumber_onto n hlo hhi
    have hid : candidateId r = "ACC-" ++ toString n := by
      unfold candidateId
      rw [hr]
    refine ⟨r, hr, ?_⟩
    rw [← hid]
    exact (generateAccountId_eq_some_iff s [r] _).mpr
      ⟨[], r, [], rfl, rfl, by rw [hid]; exact hfree, by simp⟩
  · intro s hall draws
    have htaken : ∀ r : Draw, ∃ a ∈ s, a.id = candidateId r := by
      intro r
      obtain ⟨hlo, hhi⟩ := candidateNumber_bounds r
      exact hall (candidateNumber r) hlo hhi
    have hnone := generateAccountId_none_of_all_taken htaken draws
    refine ⟨hnone, ?_⟩
    intro name x now hnan hneg
    simp [createAccount_number, hnan, hneg, hnone]

theorem id_generator_termination_witness :
    (∃ r ∈ [halfDraw, quarterDraw], ∀ a ∈ [alice], a.id ≠ candidateId r) ∧
      (∃ pre r post, [halfDraw, quarterDraw] = pre ++ r :: post ∧
        (∀ a ∈ [alice], a.id ≠ candidateId r) ∧
        (∀ d ∈ pre, ∃ a ∈ [alice], a.id = candidateId d) ∧
        generateAccountId [alice] [halfDraw, quarterDraw] = some (candidateId r) ∧
        ∀ more, generateAccountId [alice] (pre ++ r :: more) = some (candidateId r)) ∧
      (∀ n : ℤ, 1000 ≤ n → n ≤ 9999 → ∃ a ∈ fullStore, a.id = "ACC-" ++ toString n) ∧
      (∀ draws : List Draw, generateAccountId fullStore draws = none ∧
        ∀ (name : String) (x : JsNum) (now : String), x.isNaN = false →
          JsNum.lt x JsNum.zero = false →
          createAccount name (.number x) now draws fullStore = none) :=
  have h : ∃ r ∈ [halfDraw, quarterDraw], ∀ a ∈ [alice], a.id ≠ candidateId r :=
    ⟨quarterDraw, by simp, by simp [candidateId_quarterDraw, alice, newAccount]⟩
  ⟨h, id_generator_termination.1 [alice] [halfDraw, quarterDraw] h, fullStore_has_all,
    id_generator_termination.2.2 fullStore fullStore_has_all⟩

/-! ## C23: the total of the balances under a transfer -/

theorem JsNum.plus_comm (x y : JsNum) : x + y = y + x := by
  cases x <;> cases y <;> simp [JsNum.add_def, JsNum.add, Rat.add_comm]

/-- Sums may be regrouped. This is a law of the exact arithmetic of the finite case;
binary64 arithmetic has it only where no rounding occurs. -/
theorem JsNum.plus_assoc (x y z : JsNum) : (x + y) + z = x + (y + z) := by
  cases x <;> cases y <;> cases z <;> simp [JsNum.add_def, JsNum.add, Rat.add_assoc]

theorem JsNum.plus_zero (x : JsNum) : x + JsNum.zero = x := by
  rw [JsNum.plus_comm, JsNum.zero_add]

theorem JsNum.sub_fin_eq_plus (b : JsNum) (q : ℚ) : b - .fin q = b + .fin (-q) := by
  cases b <;> simp [JsNum.sub_def, JsNum.add_def, JsNum.sub, JsNum.add, sub_eq_add_neg]

theorem JsNum.plus_neg_plus_cancel (t : JsNum) (q : ℚ) : (t + .fin (-q)) + .fin q = t := by
  rw [← JsNum.sub_fin_eq_plus, JsNum.sub_add_cancel_fin]

theorem foldl_balance_init (c : JsNum) (s : List Account) :
    s.foldl (fun sum acc => sum + acc.balance) c = c + totalBalance s := by
  induction s generalizing c with
  | nil => simp [totalBalance, JsNum.plus_zero]
  | cons a rest ih =>
    simp only [totalBalance, List.foldl_cons]
    rw [ih (c + a.balance), ih (JsNum.zero + a.balance), JsNum.zero_add, JsNum.plus_assoc]

theorem totalBalance_cons (a : Account) (rest : List Account) :
    totalBalance (a :: rest) = a.balance + totalBalance rest := by
  show (a :: rest).foldl (fun sum acc => sum + acc.balance) JsNum.zero = _
  rw [List.foldl_cons, foldl_balance_init, JsNum.zero_add]

/-- Adding `y` to the balance of the first account with the id adds `y` to the total. -/
theorem totalBalance_updateFirst_plus {id : String} {f : Account → Account} {y : JsNum}
    (hf : ∀ a, (f a).balance = a.balance + y) {s : List Account}
    (hfound : ∃ a, findAccount id s = some a) :
    totalBalance (updateFirst id f s) = totalBalance s + y := by
  induction s with
  | nil => obtain ⟨a, ha⟩ := hfound; cases ha
  | cons b rest ih =>
    rw [updateFirst_cons]
    by_cases hb : b.id = id
    · rw [if_pos hb, totalBalance_cons, totalBalance_cons, hf b, JsNum.plus_assoc,
        JsNum.plus_assoc, JsNum.plus_comm y]
    · have hrest : ∃ a, findAccount id rest = some a := by
        obtain ⟨a, ha⟩ := hfound
        rw [findAccount_cons, if_neg hb] at ha
        exact ⟨a, ha⟩
      rw [if_neg hb, totalBalance_cons, totalBalance_cons, ih hrest, JsNum.plus_assoc]

/-- A mutation that keeps the balance keeps the total. -/
theorem totalBalance_updateFirst_same {id : String} {f : Account → Account}
    (hf : ∀ a, (f a).balance = a.balance) (s : List Account) :
    totalBalance (updateFirst id f s) = totalBalance s := by
  induction s with
  | nil => rfl
  | cons b rest ih =>
    rw [updateFirst_cons]
    by_cases hb : b.id = id
    · rw [if_pos hb, totalBalance_cons, totalBalance_cons, hf b]
    · rw [if_neg hb, totalBalance_cons, totalBalance_cons, ih]

theorem findAccount_updateFirst_found {id other : String} {f : Account → Account}
    (hf : KeepsId f) {s : List Account} (h : ∃ a, findAccount other s = some a) :
    ∃ a, findAccount other (updateFirst id f s) = some a := by
  obtain ⟨a, ha⟩ := h
  by_cases hne : other = id
  · subst hne
    exact ⟨f a, by rw [findAccount_updateFirst_same hf, ha]; rfl⟩
  · exact ⟨a, by rw [findAccount_updateFirst_ne hf hne, ha]⟩

theorem run_create_bob_after_rich :
    (Call.create "Bob" (.number (.fin 0)) "t1" [halfDraw, quarterDraw]).run [richAccount] =
      some (.successAccount bob, [richAccount, bob]) := by
  have h : generateAccountId [richAccount] [halfDraw, quarterDraw] = some "ACC-3250" := by
    simp [generateAccountId, idTaken, candidateId_halfDraw, candidateId_quarterDraw,
      richAccount, newAccount]
  exact @createAccount_of_generated "Bob" (.fin 0) "t1" [halfDraw, quarterDraw] [richAccount]
    "ACC-3250" rfl (by norm_num [JsNum.lt, JsNum.zero]) h

/-- C23, as stated, fails: in the store reached by `createAccount('Rich', Infinity)` and
`createAccount('Bob', 0)` the balances add up to `Infinity`; the call
`transferFunds('ACC-5500', 'ACC-3250', Infinity)` succeeds, leaves the source with
`Infinity - Infinity = NaN` and the destination with `Infinity`, and the balances then
add up to `NaN`. -/
theorem conservation_counterexample :
    Reachable [richAccount, bob] ∧
      transferFunds "ACC-5500" "ACC-3250" (.number .posInf) "t2" [richAccount, bob] =
        (.success, richBobAfterTransfer) ∧
      totalBalance [richAccount, bob] = .posInf ∧
      totalBalance richBobAfterTransfer = .nan ∧
      totalBalance richBobAfterTransfer ≠ totalBalance [richAccount, bob] := by
  have h1 : transferFunds "ACC-5500" "ACC-3250" (.number .posInf) "t2" [richAccount, bob] =
      (.success, richBobAfterTransfer) := by decide
  have h2 : totalBalance [richAccount, bob] = .posInf := by decide
  have h3 : totalBalance richBobAfterTransfer = .nan := by decide
  refine ⟨.step _ _ _ _ (.step _ _ _ _ .empty trivial run_create_rich) trivial
    run_create_bob_after_rich, h1, h2, h3, ?_⟩
  rw [h2, h3]
  decide

theorem totalBalance_whole {s : List Account} (h : ∀ a ∈ s, WholeBalance a) :
    ∃ N : ℕ, totalBalance s = .fin (N : ℚ) ∧
      ∀ a ∈ s, ∃ n : ℕ, a.balance = .fin (n : ℚ) ∧ n ≤ N := by
  induction s with
  | nil => exact ⟨0, by simp [totalBalance, JsNum.zero], by simp⟩
  | cons b rest ih =>
    obtain ⟨N, hN, hrest⟩ := ih (fun a ha => h a (List.mem_cons_of_mem _ ha))
    obtain ⟨n, hn⟩ := h b (List.mem_cons_self _ _)
    refine ⟨n + N, by rw [totalBalance_cons, hn, hN, JsNum.fin_add_fin, Nat.cast_add], ?_⟩
    intro a ha
    rcases List.mem_cons.mp ha with rfl | ha
    · exact ⟨n, hn, by omega⟩
    · obtain ⟨k, hk, hkN⟩ := hrest a ha
      exact ⟨k, hk, by omega⟩

theorem keeps_wholeBalance (fromId toId : String) (amount : JsValue) (now : String)
    (hamount : ∀ x, amount = .number x → x.IsSafeNat) :
    (Call.transfer fromId toId amount now).Keeps WholeBalance := by
  intro x hx
  obtain ⟨hnum, _, _⟩ := positiveAmount_eq_some.mp hx
  obtain ⟨m, rfl, _⟩ := hamount x hnum
  have hdebit : ∀ a : Account, JsNum.lt a.balance (.fin (m : ℚ)) = false → WholeBalance a →
      ∃ k : ℕ, a.balance - .fin (m : ℚ) = .fin (k : ℚ) ∧
        a.balance = .fin ((k + m : ℕ) : ℚ) := by
    intro a hlt ha
    obtain ⟨n, hn⟩ := ha
    rw [hn] at hlt ⊢
    have hmn : m ≤ n := by
      simp only [JsNum.lt, decide_eq_false_iff_not, not_lt] at hlt
      exact_mod_cast hlt
    refine ⟨n - m, by rw [JsNum.fin_sub_fin, Nat.cast_sub hmn], ?_⟩
    rw [Nat.sub_add_cancel hmn]
  refine ⟨fun _ => ⟨fun a hlt ha => ?_, fun a ha => ?_⟩, fun _ a hlt ha => ?_⟩
  · obtain ⟨k, hk, _⟩ := hdebit a hlt ha
    exact ⟨k, hk⟩
  · obtain ⟨n, hn⟩ := ha
    exact ⟨n + m, by simp [pushTx, credit, hn]⟩
  · obtain ⟨k, _, hb⟩ := hdebit a hlt ha
    refine ⟨k + m, ?_⟩
    show (a.balance - .fin (m : ℚ)) + .fin (m : ℚ) = _
    rw [JsNum.sub_add_cancel_fin, hb]

/-- In the exact arithmetic of the finite case, a transfer of an amount other than
`Infinity` keeps the total. The proof uses associativity of the sum, which binary64
arithmetic has only where no rounding occurs. -/
theorem totalBalance_transfer_exact (s : List Account) (fromId toId : String)
    (amount : JsValue) (now : String) (hfin : amount ≠ .number .posInf) :
    totalBalance (transferFunds fromId toId amount now s).2 = totalBalance s := by
  cases hr : transferFunds fromId toId amount now s with
  | mk r s2 =>
    rcases transferFunds_returns hr with ⟨_, rfl⟩ | ⟨x, a, b, ha, hb, hx, _, _, rfl⟩
    · rfl
    · obtain ⟨rfl, hnan, hle⟩ := positiveAmount_eq_some.mp hx
      rcases positive_cases hnan hle with rfl | ⟨q, rfl, _⟩
      · exact absurd rfl hfin
      · have hdebit : ∀ c, (debit (.fin q) c).balance = c.balance + .fin (-q) :=
          fun c => JsNum.sub_fin_eq_plus c.balance q
        have hcredit : ∀ c, (credit (.fin q) c).balance = c.balance + .fin q := fun _ => rfl
        have hpush : ∀ (t : TxType) (d : String) (c : Account),
            (pushTx t (.fin q) now d c).balance = c.balance := fun _ _ _ => rfl
        simp only
        rw [totalBalance_updateFirst_same (hpush .TRANSFER_IN ("From " ++ fromId)),
          totalBalance_updateFirst_same (hpush .TRANSFER_OUT ("To " ++ toId)),
          totalBalance_updateFirst_plus hcredit
            (findAccount_updateFirst_found (keepsId_debit _) ⟨b, hb⟩),
          totalBalance_updateFirst_plus hdebit ⟨a, ha⟩, JsNum.plus_neg_plus_cancel]

/-- C23, amended. A rejected call of `transferFunds` leaves the store, and with it the
sum of the balances, as it was. For a store whose balances are non-negative whole numbers
with a sum of at most `Number.MAX_SAFE_INTEGER` and an amount that, when it is a number,
is such a whole number, the sum of the balances of all accounts, added up in store order
from `0`, is the same after the call as before it, whether the call succeeds or is
rejected and whether or not the source id and the destination id are the same; and every
balance after the call is again such a whole number. -/
theorem conservation (s : List Account) (fromId toId : String) (amount : JsValue)
    (now : String) :
    ((transferFunds fromId toId amount now s).1.isError = true →
      (transferFunds fromId toId amount now s).2 = s) ∧
    ((∀ a ∈ s, a.balance.IsSafeNat) → (totalBalance s).IsSafeNat →
      (∀ x, amount = .number x → x.IsSafeNat) →
      totalBalance (transferFunds fromId toId amount now s).2 = totalBalance s ∧
      ∀ a ∈ (transferFunds fromId toId amount now s).2, a.balance.IsSafeNat) := by
  constructor
  · intro herr
    exact @run_error_store (.transfer fromId toId amount now) s _ _ rfl herr
  · intro hbal htotal hamount
    have hfin : amount ≠ .number .posInf := by
      intro h
      obtain ⟨n, hn, _⟩ := hamount .posInf h
      cases hn
    have hsum := totalBalance_transfer_exact s fromId toId amount now hfin
    refine ⟨hsum, ?_⟩
    have hwhole : ∀ a ∈ (transferFunds fromId toId amount now s).2, WholeBalance a :=
      @run_keeps WholeBalance (.transfer fromId toId amount now) s _ _
        (keeps_wholeBalance fromId toId amount now hamount)
        (fun a ha => by obtain ⟨n, hn, _⟩ := hbal a ha; exact ⟨n, hn⟩) rfl
    obtain ⟨N, hN, hall⟩ := totalBalance_whole hwhole
    obtain ⟨T, hT, hTle⟩ := htotal
    have hNT : N = T := by
      rw [hsum, hT] at hN
      have h2 : (T : ℚ) = (N : ℚ) := by
        injection hN
      exact_mod_cast h2.symm
    intro a ha
    obtain ⟨n, hn, hnN⟩ := hall a ha
    exact ⟨n, hn, by omega⟩

theorem conservation_witness :
    (∀ a ∈ [alice, bob], a.balance.IsSafeNat) ∧ (totalBalance [alice, bob]).IsSafeNat ∧
      (∀ x, JsValue.number (.fin 100) = .number x → x.IsSafeNat) ∧
      totalBalance
          (transferFunds "ACC-5500" "ACC-3250" (.number (.fin 100)) "t2" [alice, bob]).2 =
        totalBalance [alice, bob] ∧
      ∀ a ∈ (transferFunds "ACC-5500" "ACC-3250" (.number (.fin 100)) "t2" [alice, bob]).2,
        a.balance.IsSafeNat :=
  have h1 : ∀ a ∈ [alice, bob], a.balance.IsSafeNat := by
    intro a ha
    simp only [List.mem_cons, List.mem_singleton, List.not_mem_nil, or_false] at ha
    rcases ha with rfl | rfl
    · exact ⟨100, by norm_num [alice, newAccount], by norm_num⟩
    · exact ⟨0, by norm_num [bob, newAccount], by norm_num⟩
  have h2 : (totalBalance [alice, bob]).IsSafeNat :=
    ⟨100, by norm_num [totalBalance, alice, bob, newAccount, JsNum.zero], by norm_num⟩
  have h3 : ∀ x, JsValue.number (.fin 100) = .number x → x.IsSafeNat := by
    intro x hx
    cases hx
    exact ⟨100, by norm_num, by norm_num⟩
  ⟨h1, h2, h3,
    (conservation [alice, bob] "ACC-5500" "ACC-3250" (.number (.fin 100)) "t2").2 h1 h2 h3⟩

end Bank
